import Mathlib

set_option maxHeartbeats 1000000

/-!
Shallow embedding of the two core components of the repository:

* the tool-call dispatcher of
  `main/xiaozhi-server/core/handle/functionHandler.py`
  (`FunctionHandler.handle_llm_function_call`, the JSON-concatenation
  repair pass, `modify_plugin_loader_des`, `register_config_functions`), and
* the expiring LRU cache of
  `main/xiaozhi-server/core/utils/weather_cache.py` (`WeatherCachePool`).

Python strings are modelled as `String` (with `List Char` used for the
character-level scans the source performs), Python dicts as
insertion-ordered association lists, timestamps (`time.time()` floats) as
exact rationals `Rat`, and JSON values as a small inductive type.
-/

/-- A JSON value as far as the dispatcher's argument payloads need:
integer or string leaves.  Python's `json.loads` of an argument object
produces a dict of such values. -/
inductive JVal where
  | num (n : Int)
  | str (s : String)
deriving DecidableEq

/-- A decoded argument object: a Python dict, i.e. an insertion-ordered
association list with unique keys. -/
abbrev Args := List (String × JVal)

/-- Python dict assignment `d[k] = v`: an existing key keeps its position
and gets the new value, a new key is appended at the end. -/
def dinsert {K : Type} [DecidableEq K] {α : Type} (d : List (K × α)) (k : K) (v : α) :
    List (K × α) :=
  if d.any (fun p => p.1 = k) then
    d.map (fun p => if p.1 = k then (k, v) else p)
  else d ++ [(k, v)]

/-- Python `d.update(e)`: assign every key/value pair of `e` into `d` in
order. -/
def dictUpdate (d e : Args) : Args :=
  e.foldl (fun acc p => dinsert acc p.1 p.2) d

/-- Python dict lookup `d[k]` / `d.get(k)` as an `Option`. -/
def dlookup {K : Type} [DecidableEq K] {α : Type} (k : K) : List (K × α) → Option α
  | [] => none
  | p :: rest => if p.1 = k then some p.2 else dlookup k rest

/-- Python `d.pop(k, None)` / `del d[k]` on a unique-keyed dict: drop the
pair with key `k`. -/
def dremove {K : Type} [DecidableEq K] {α : Type} (d : List (K × α)) (k : K) :
    List (K × α) :=
  d.filter (fun p => ¬ p.1 = k)

/-- Python substring test `pat in s` for a non-empty needle, on the
character list of the string. -/
def hasSub (pat : List Char) : List Char → Bool
  | [] => false
  | c :: rest => pat.isPrefixOf (c :: rest) || hasSub pat rest

/-- State of the character scan of the repair pass in
`handle_llm_function_call`: the fragments emitted so far (`json_parts`),
the pending buffer (`current_part`) and the nesting counter
(`brace_count`, a Python int, so it may go negative). -/
structure SplitState where
  parts : List (List Char)
  current : List Char
  depth : Int
deriving DecidableEq

/-- One iteration of the `for char in arguments` loop of the repair pass:
on `\x7b` at depth 0 with a non-empty buffer the buffer is emitted as a
fragment and cleared, then the depth is bumped; on `\x7d` the depth is
decremented; in every case the character is appended to the buffer. -/
def splitStep (st : SplitState) (c : Char) : SplitState :=
  let st1 :=
    if c = '\x7b' then
      if st.depth = 0 ∧ st.current ≠ [] then
        { parts := st.parts ++ [st.current], current := [], depth := st.depth + 1 }
      else
        { st with depth := st.depth + 1 }
    else if c = '\x7d' then
      { st with depth := st.depth - 1 }
    else st
  { st1 with current := st1.current ++ [c] }

/-- The brace-depth split of the repair pass: run the scan over the raw
payload and append the final non-empty buffer as a last fragment. -/
def splitConcatJson (raw : String) : List (List Char) :=
  let st := raw.data.foldl splitStep { parts := [], current := [], depth := 0 }
  if st.current ≠ [] then st.parts ++ [st.current] else st.parts

/-- The concatenation evidence the source tests for before repairing:
the literal three-character substring `\x7d\x7b"`. -/
def concatPattern : List Char := ['\x7d', '\x7b', '"']

/-- Python `'\x7d\x7b"' in arguments`. -/
def hasConcatPattern (raw : String) : Bool :=
  hasSub concatPattern raw.data

/-- The exceptions the dispatcher can see: a `json.JSONDecodeError`
raised while decoding the given raw payload, or an exception raised by an
invoked capability. -/
inductive PyErr where
  | jsonDecode (raw : String)
  | callFail (msg : String)
deriving DecidableEq

/-- The merge loop of the repair pass: parse each fragment, `update` the
accumulator dict with every fragment that parses, silently skip (Python
`continue`) every fragment that does not. -/
def mergeJsonParts (loads : String → Option Args) (parts : List (List Char)) : Args :=
  parts.foldl
    (fun acc part =>
      match loads (String.mk part) with
      | some o => dictUpdate acc o
      | none => acc)
    []

/-- The argument-decoding phase of `handle_llm_function_call`,
parameterised by `loads`, the strict decoder standing in for Python's
`json.loads` (`none` models a raised `JSONDecodeError`).  An empty
payload decodes to the empty dict; otherwise strict decoding is tried;
on failure, if the payload contains the concatenation pattern the repair
pass runs, and otherwise the original decode error is re-raised. -/
def decodeArguments (loads : String → Option Args) (raw : String) : Except PyErr Args :=
  if raw = "" then .ok []
  else
    match loads raw with
    | some o => .ok o
    | none =>
      if hasConcatPattern raw then .ok (mergeJsonParts loads (splitConcatJson raw))
      else .error (.jsonDecode raw)

/-- Modelled from the spec: the calling-convention tag carried on a
capability descriptor (`plugins_func/register.py` is not part of the
sources; the tag names follow the members `handle_llm_function_call`
dispatches on, with `OTHER` standing for every remaining member). -/
inductive ToolType where
  | SYSTEM_CTL
  | IOT_CTL
  | WAIT
  | CHANGE_SYS_PROMPT
  | OTHER
deriving DecidableEq

/-- Modelled from the spec: the action tag of a dispatcher response, one
of continue-with-llm, success-terminal and not-found
(`plugins_func/register.py` is not part of the sources; the handler only
constructs `NOTFOUND`). -/
inductive DispatchAction where
  | REQLLM
  | RESPONSE
  | NOTFOUND
deriving DecidableEq

/-- Modelled from the spec: the uniform response shape
`ActionResponse(action, result, response)`. -/
structure ActionResponse where
  action : DispatchAction
  result : String
  response : String
deriving DecidableEq

/-- The not-found response the handler returns, with its literal result
text from the source. -/
def notFoundResponse : ActionResponse :=
  { action := .NOTFOUND, result := "没有找到对应的函数", response := "" }

/-- A registered capability: its calling-convention tag and its callable.
The callable receives the connection context (or not, per the `WAIT`
convention) and the decoded keyword arguments; a raised exception is
modelled as `Except.error`. -/
structure FuncItem (C : Type) where
  type : ToolType
  func : Option C → Args → Except PyErr ActionResponse

/-- The `function_call_data` payload handed to the dispatcher: the
capability name and the raw serialized arguments. -/
structure FunctionCallData where
  name : String
  arguments : String

/-- The convention dispatch of `handle_llm_function_call`:
`SYSTEM_CTL`/`IOT_CTL` and `CHANGE_SYS_PROMPT` call with the connection,
`WAIT` calls without it, and any other tag falls through to the
not-found response without calling. -/
def invokeFunc {C : Type} (item : FuncItem C) (conn : C) (args : Args) :
    Except PyErr ActionResponse :=
  match item.type with
  | .SYSTEM_CTL => item.func (some conn) args
  | .IOT_CTL => item.func (some conn) args
  | .WAIT => item.func none args
  | .CHANGE_SYS_PROMPT => item.func (some conn) args
  | .OTHER => .ok notFoundResponse

/-- The body of the `try` block of `handle_llm_function_call`: look the
name up in the registry (absent gives the not-found response), decode the
arguments, dispatch on the convention.  An `Except.error` is an exception
propagating out of the `try` body. -/
def handleInner {C : Type} (loads : String → Option Args)
    (registry : List (String × FuncItem C)) (conn : C) (data : FunctionCallData) :
    Except PyErr ActionResponse :=
  match dlookup data.name registry with
  | none => .ok notFoundResponse
  | some item =>
    match decodeArguments loads data.arguments with
    | .error e => .error e
    | .ok args => invokeFunc item conn args

/-- `handle_llm_function_call` as its caller sees it: the `try` body's
result, with the outer `except Exception` catching every raised exception,
logging it and returning `None`. -/
def handle_llm_function_call {C : Type} (loads : String → Option Args)
    (registry : List (String × FuncItem C)) (conn : C) (data : FunctionCallData) :
    Option ActionResponse :=
  match handleInner loads registry conn data with
  | .ok r => some r
  | .error _ => none

/-- State of the fragment scan as claim C1 words it (depth counter and
pending buffer, fragments cut where the depth returns to zero). -/
structure ClaimSplitState where
  parts : List (List Char)
  current : List Char
  depth : Int
deriving DecidableEq

/-- One step of the split described by claim C1's words: the character is
appended to the buffer, and the buffer is emitted as a fragment at every
point where the brace depth returns from positive to zero. -/
def claimSplitStep (st : ClaimSplitState) (c : Char) : ClaimSplitState :=
  let depth' :=
    if c = '\x7b' then st.depth + 1
    else if c = '\x7d' then st.depth - 1
    else st.depth
  let cur' := st.current ++ [c]
  if c = '\x7d' ∧ st.depth = 1 then
    { parts := st.parts ++ [cur'], current := [], depth := depth' }
  else
    { parts := st.parts, current := cur', depth := depth' }

/-- The split as described by claim C1's words: fragments end at every
point where the brace depth returns to zero, and the final non-empty
buffer is a last fragment. -/
def claimSplit (raw : String) : List (List Char) :=
  let st := raw.data.foldl claimSplitStep { parts := [], current := [], depth := 0 }
  if st.current ≠ [] then st.parts ++ [st.current] else st.parts

/-- The repair result claim C1 describes: merge the successfully parsed
fragments of the depth-returns-to-zero split, dropping failures. -/
def claimRepair (loads : String → Option Args) (raw : String) : Args :=
  mergeJsonParts loads (claimSplit raw)

/-- Consume spaces, for the concrete JSON decoder below. -/
def skipSpaces : List Char → List Char
  | ' ' :: rest => skipSpaces rest
  | cs => cs

/-- Read the body of a JSON string literal up to the closing quote
(escapes unsupported: they make the concrete decoder fail, which is all
the dispatcher observes of them). -/
def takeStringBody : List Char → Option (List Char × List Char)
  | [] => none
  | c :: rest =>
    if c = '"' then some ([], rest)
    else if c = '\\' then none
    else
      match takeStringBody rest with
      | some (body, rem) => some (c :: body, rem)
      | none => none

/-- Split a leading run of decimal digits off a character list. -/
def takeDigits : List Char → (List Char × List Char)
  | [] => ([], [])
  | c :: rest =>
    if c.isDigit then
      let p := takeDigits rest
      (c :: p.1, p.2)
    else ([], c :: rest)

/-- Numeric value of a digit run. -/
def digitsToNat (ds : List Char) : Nat :=
  ds.foldl (fun acc c => acc * 10 + (c.toNat - 48)) 0

/-- Parse one JSON leaf value: a string literal or an integer. -/
def parseJValue (cs : List Char) : Option (JVal × List Char) :=
  match cs with
  | [] => none
  | c :: rest =>
    if c = '"' then
      match takeStringBody rest with
      | some (body, rem) => some (.str (String.mk body), rem)
      | none => none
    else if c = '-' then
      let p := takeDigits rest
      if p.1 = [] then none else some (.num (-(digitsToNat p.1 : Int)), p.2)
    else if c.isDigit then
      let p := takeDigits (c :: rest)
      some (.num (digitsToNat p.1), p.2)
    else none

/-- Parse the members of a JSON object after its opening brace, with fuel
bounding the recursion; returns the object and the remainder after the
closing brace. -/
def parseMembers : Nat → List Char → Args → Option (Args × List Char)
  | 0, _, _ => none
  | fuel + 1, cs, acc =>
    match skipSpaces cs with
    | [] => none
    | c :: rest =>
      if c = '"' then
        match takeStringBody rest with
        | none => none
        | some (key, rem) =>
          match skipSpaces rem with
          | ':' :: rem2 =>
            match parseJValue (skipSpaces rem2) with
            | none => none
            | some (v, rem3) =>
              match skipSpaces rem3 with
              | ',' :: rem4 => parseMembers fuel rem4 (dinsert acc (String.mk key) v)
              | '\x7d' :: rem4 => some (dinsert acc (String.mk key) v, rem4)
              | _ => none
          | _ => none
      else none

/-- A concrete strict JSON decoder standing in for Python's `json.loads`
(an external library function), restricted to flat objects with string
keys and integer or string values — the shape every concrete payload in
this development uses.  Any other input, including trailing garbage after
one complete object, fails (`none`), exactly as `json.loads` raises
`JSONDecodeError` on it. -/
def jsonLoads (s : String) : Option Args :=
  match skipSpaces s.data with
  | '\x7b' :: rest =>
    match skipSpaces rest with
    | '\x7d' :: rem => if skipSpaces rem = [] then some [] else none
    | rest1 =>
      match parseMembers (rest1.length + 1) rest1 [] with
      | some (obj, rem) => if skipSpaces rem = [] then some obj else none
      | none => none
  | _ => none

deriving instance DecidableEq for Except

/-- A demonstration registered capability whose call succeeds, used for
concrete dispatcher runs. -/
def demoItem : FuncItem Unit :=
  { type := .WAIT, func := fun _ _ => .ok { action := .RESPONSE, result := "ok", response := "ok" } }

/-- A demonstration registered capability whose call raises. -/
def failItem : FuncItem Unit :=
  { type := .SYSTEM_CTL, func := fun _ _ => .error (.callFail "boom") }

/-- A demonstration registry with one registered capability of each kind. -/
def demoRegistry : List (String × FuncItem Unit) :=
  [("get_weather", demoItem), ("send_email", failItem)]

/-- C1 counterexample: on the payload `\x7b"a":1\x7d\x7b"b":2\x7dx\x7b"c":3\x7d`
(which fails strict decoding and contains the concatenation pattern), the
dispatcher's repair — which splits immediately before each opening brace
read at depth zero — keeps the garbage `x` attached to the second
fragment, drops that fragment, and decodes to `\x7ba:1, c:3\x7d`; splitting at
every point where the depth returns to zero, as the claim states, would
instead give `\x7ba:1, b:2\x7d`.  The two results differ, so the claim's
description of the repair is false on this payload. -/
theorem c1_counterexample :
    decodeArguments jsonLoads "\x7b\"a\":1\x7d\x7b\"b\":2\x7dx\x7b\"c\":3\x7d"
      = .ok [("a", JVal.num 1), ("c", JVal.num 3)]
    ∧ claimRepair jsonLoads "\x7b\"a\":1\x7d\x7b\"b\":2\x7dx\x7b\"c\":3\x7d"
      = [("a", JVal.num 1), ("b", JVal.num 2)]
    ∧ [("a", JVal.num 1), ("c", JVal.num 3)] ≠ [("a", JVal.num 1), ("b", JVal.num 2)] := by
  refine ⟨by decide, by decide, by decide⟩

/-- C1 (amended): for every raw argument payload, the dispatcher decodes
an empty payload to the empty object; a payload that strict-decodes
yields the decoded object; a payload that fails strict decoding but
contains the concatenation pattern is split by brace-depth tracking into
fragments cut immediately before each opening brace read at depth zero
with a non-empty pending buffer (inter-object text stays attached to the
preceding fragment), and the fragments that parse are merged, in fragment
order, into one accumulator object, fragments that fail to parse being
silently dropped; the merged object becomes the decoded arguments. -/
theorem c1_decode_repair (loads : String → Option Args) (raw : String) :
    (raw = "" → decodeArguments loads raw = .ok [])
    ∧ (∀ o, loads raw = some o → raw ≠ "" → decodeArguments loads raw = .ok o)
    ∧ (loads raw = none → raw ≠ "" → hasConcatPattern raw = true →
        decodeArguments loads raw
          = .ok ((splitConcatJson raw).foldl
              (fun acc part =>
                match loads (String.mk part) with
                | some o => dictUpdate acc o
                | none => acc) [])) := by
  refine ⟨fun h => by simp [decodeArguments, h], fun o ho hne => ?_, fun hn hne hp => ?_⟩
  · simp [decodeArguments, hne, ho]
  · simp [decodeArguments, hne, hn, hp, mergeJsonParts]

/-- C1 witness: the amended theorem evaluated on the spec's own examples:
the empty payload, a well-formed single object, and a concatenation with
an unparseable middle fragment. -/
theorem c1_witness :
    decodeArguments jsonLoads "" = .ok []
    ∧ decodeArguments jsonLoads "\x7b\"a\":1\x7d" = .ok [("a", JVal.num 1)]
    ∧ decodeArguments jsonLoads "\x7b\"a\":1\x7d\x7binvalid\x7d\x7b\"b\":2\x7d"
      = .ok ((splitConcatJson "\x7b\"a\":1\x7d\x7binvalid\x7d\x7b\"b\":2\x7d").foldl
          (fun acc part =>
            match jsonLoads (String.mk part) with
            | some o => dictUpdate acc o
            | none => acc) []) :=
  ⟨(c1_decode_repair jsonLoads "").1 rfl,
   (c1_decode_repair jsonLoads "\x7b\"a\":1\x7d").2.1 [("a", JVal.num 1)] (by decide) (by decide),
   (c1_decode_repair jsonLoads "\x7b\"a\":1\x7d\x7binvalid\x7d\x7b\"b\":2\x7d").2.2
     (by decide) (by decide) (by decide)⟩

/-- C5 counterexample: for a registered capability invoked with the
payload `not json at all` (no concatenation pattern), the decode error is
indeed raised out of the `try` body — but the dispatcher's outer
`except Exception` catches it and the caller receives `None`, not the
error.  The claim's "propagated to the dispatcher's caller, not masked"
is therefore false on this input. -/
theorem c5_counterexample :
    handleInner jsonLoads demoRegistry () { name := "get_weather", arguments := "not json at all" }
      = .error (.jsonDecode "not json at all")
    ∧ handle_llm_function_call jsonLoads demoRegistry ()
        { name := "get_weather", arguments := "not json at all" }
      = none := by
  refine ⟨by decide, by decide⟩

/-- C5 (amended): when the raw argument payload of a registered
capability fails to decode and contains no evidence of the concatenation
pattern, the original decode error is re-raised out of the decode step
and aborts the invocation; the dispatcher's boundary handler then catches
it and returns no result (`None`) to its caller, rather than propagating
the error. -/
theorem c5_decode_error_masked {C : Type} (loads : String → Option Args)
    (registry : List (String × FuncItem C)) (conn : C) (data : FunctionCallData)
    (item : FuncItem C)
    (hfound : dlookup data.name registry = some item)
    (hne : data.arguments ≠ "")
    (hfail : loads data.arguments = none)
    (hpat : hasConcatPattern data.arguments = false) :
    handleInner loads registry conn data = .error (.jsonDecode data.arguments)
    ∧ handle_llm_function_call loads registry conn data = none := by
  have hdec : decodeArguments loads data.arguments = .error (.jsonDecode data.arguments) := by
    simp [decodeArguments, hne, hfail, hpat]
  constructor
  · simp [handleInner, hfound, hdec]
  · simp [handle_llm_function_call, handleInner, hfound, hdec]

/-- C5 witness: the amended theorem at the concrete registry and the
payload `not json at all`. -/
theorem c5_witness :
    handleInner jsonLoads demoRegistry () { name := "get_weather", arguments := "not json at all" }
      = .error (.jsonDecode "not json at all")
    ∧ handle_llm_function_call jsonLoads demoRegistry ()
        { name := "get_weather", arguments := "not json at all" }
      = none :=
  c5_decode_error_masked jsonLoads demoRegistry ()
    { name := "get_weather", arguments := "not json at all" } demoItem
    rfl (by decide) (by decide) (by decide)

/-- C6 (confirmed): for every invocation, an unregistered capability name
yields the response carrying the not-found action tag (no exception
escapes, the dispatch function is total); a registered capability whose
underlying callable raises yields `None` — the empty outcome, distinct
from the not-found response — and again no exception escapes the
boundary. -/
theorem c6_dispatch_boundary {C : Type} (loads : String → Option Args)
    (registry : List (String × FuncItem C)) (conn : C) (data : FunctionCallData) :
    (dlookup data.name registry = none →
      handle_llm_function_call loads registry conn data = some notFoundResponse)
    ∧ (∀ (item : FuncItem C) (args : Args) (e : PyErr),
        dlookup data.name registry = some item →
        decodeArguments loads data.arguments = .ok args →
        invokeFunc item conn args = .error e →
        handle_llm_function_call loads registry conn data = none
          ∧ none ≠ some notFoundResponse) := by
  constructor
  · intro h
    simp [handle_llm_function_call, handleInner, h]
  · intro item args e h1 h2 h3
    refine ⟨?_, by simp⟩
    simp [handle_llm_function_call, handleInner, h1, h2, h3]

/-- C6 witness: the boundary theorem at the concrete registry — an
unregistered name, and the registered `send_email` capability whose call
raises. -/
theorem c6_witness :
    handle_llm_function_call jsonLoads demoRegistry ()
      { name := "missing", arguments := "" } = some notFoundResponse
    ∧ handle_llm_function_call jsonLoads demoRegistry ()
        { name := "send_email", arguments := "" } = none :=
  ⟨(c6_dispatch_boundary jsonLoads demoRegistry ()
      { name := "missing", arguments := "" }).1 rfl,
   ((c6_dispatch_boundary jsonLoads demoRegistry ()
      { name := "send_email", arguments := "" }).2 failItem [] (.callFail "boom")
      rfl rfl rfl).1⟩

/-- Python `s.replace(old, new)` on character lists, with fuel bounding
the scan (each step consumes at least one character, so a fuel of the
subject's length always suffices): scan left to right, replacing each
leftmost occurrence of the (non-empty) needle and continuing after the
inserted replacement (occurrences never overlap). -/
def replaceCharsAux (old new : List Char) : Nat → List Char → List Char
  | 0, s => s
  | _ + 1, [] => []
  | fuel + 1, c :: rest =>
    if old ≠ [] ∧ old.isPrefixOf (c :: rest) then
      new ++ replaceCharsAux old new fuel ((c :: rest).drop old.length)
    else
      c :: replaceCharsAux old new fuel rest

/-- Python `s.replace(old, new)` on character lists. -/
def replaceChars (old new s : List Char) : List Char :=
  replaceCharsAux old new s.length s

/-- Python `s.replace(old, new)` on strings. -/
def strReplace (s old new : String) : String :=
  String.mk (replaceChars old.data new.data s.data)

/-- If the needle occurs nowhere in the subject, the replacement scan is
the identity, whatever the fuel. -/
theorem replaceCharsAux_of_not_hasSub (old new : List Char) :
    ∀ (fuel : Nat) (s : List Char), hasSub old s = false →
      replaceCharsAux old new fuel s = s := by
  intro fuel
  induction fuel with
  | zero => intro s _; rfl
  | succ fuel ih =>
    intro s h
    match s with
    | [] => rfl
    | c :: rest =>
      rw [hasSub, Bool.or_eq_false_iff] at h
      rw [replaceCharsAux, if_neg (by simp [h.1])]
      rw [ih rest h.2]

/-- If the needle occurs nowhere in the subject, replacement is the
identity. -/
theorem replaceChars_of_not_hasSub (old new : List Char) (s : List Char)
    (h : hasSub old s = false) : replaceChars old new s = s :=
  replaceCharsAux_of_not_hasSub old new s.length s h

/-- One function-description entry of `functions_desc` as
`modify_plugin_loader_des` reads it: the `name` and `description` fields
of its inner `function` object. -/
structure FuncDesc where
  name : String
  description : String
deriving DecidableEq

/-- The search loop of `modify_plugin_loader_des`: walk the description
list, rewrite the description of the first entry named `plugin_loader`
(replacing the `[plugins]` token by the joined plugin names) and `break`,
leaving all other entries untouched. -/
def replaceFirstPluginLoader (joined : String) : List FuncDesc → List FuncDesc
  | [] => []
  | f :: rest =>
    if f.name = "plugin_loader" then
      { f with description := strReplace f.description "[plugins]" joined } :: rest
    else f :: replaceFirstPluginLoader joined rest

/-- The `",".join(surport_plugins)` line of `modify_plugin_loader_des`:
the comma-joined registered names with `plugin_loader` itself removed. -/
def joinedPluginNames (func_names : List String) : String :=
  String.intercalate "," (func_names.filter (fun n => n ≠ "plugin_loader"))

/-- `FunctionHandler.modify_plugin_loader_des`: if `plugin_loader` is not
among the registered names, return unchanged; otherwise join all other
names with commas and substitute them for the `[plugins]` token in the
first `plugin_loader` description. -/
def modify_plugin_loader_des (func_names : List String) (descs : List FuncDesc) :
    List FuncDesc :=
  if "plugin_loader" ∈ func_names then
    replaceFirstPluginLoader (joinedPluginNames func_names) descs
  else descs

/-- The search loop passes over a prefix with no `plugin_loader` entry
unchanged. -/
theorem replaceFirstPluginLoader_append (joined : String) (pre rest : List FuncDesc)
    (hpre : ∀ f ∈ pre, f.name ≠ "plugin_loader") :
    replaceFirstPluginLoader joined (pre ++ rest)
      = pre ++ replaceFirstPluginLoader joined rest := by
  induction pre with
  | nil => simp
  | cons f pre ih =>
    have hf : f.name ≠ "plugin_loader" := hpre f (by simp)
    simp only [List.cons_append, replaceFirstPluginLoader, if_neg hf]
    rw [List.append_eq, ih (fun g hg => hpre g (by simp [hg]))]

/-- C8 (confirmed): when the meta capability `plugin_loader` is
registered (entry `d`, sitting after a prefix with no other
`plugin_loader` entry), the substitution step rewrites exactly its
description, replacing the `[plugins]` token by the comma-joined names of
all other registered capabilities in registration order — `plugin_loader`
itself never appears in that join — and, provided the rewritten
description no longer contains the token (true of every real
registration, where no capability name contains `[plugins]`), running the
substitution a second time on the unchanged registry leaves every
description unchanged. -/
theorem c8_plugin_loader_substitution
    (pre post : List FuncDesc) (d : FuncDesc)
    (hpre : ∀ f ∈ pre, f.name ≠ "plugin_loader")
    (hd : d.name = "plugin_loader")
    (htok : hasSub "[plugins]".data
        (strReplace d.description "[plugins]"
          (joinedPluginNames ((pre ++ d :: post).map FuncDesc.name))).data = false) :
    modify_plugin_loader_des ((pre ++ d :: post).map FuncDesc.name) (pre ++ d :: post)
      = pre ++ { d with
          description := strReplace d.description "[plugins]"
            (joinedPluginNames ((pre ++ d :: post).map FuncDesc.name)) } :: post
    ∧ modify_plugin_loader_des ((pre ++ d :: post).map FuncDesc.name)
        (modify_plugin_loader_des ((pre ++ d :: post).map FuncDesc.name) (pre ++ d :: post))
      = modify_plugin_loader_des ((pre ++ d :: post).map FuncDesc.name) (pre ++ d :: post)
    ∧ "plugin_loader"
        ∉ ((pre ++ d :: post).map FuncDesc.name).filter (fun n => n ≠ "plugin_loader") := by
  have hmem : "plugin_loader" ∈ (pre ++ d :: post).map FuncDesc.name := by
    simp only [List.mem_map]
    exact ⟨d, by simp, hd⟩
  have h1 : modify_plugin_loader_des ((pre ++ d :: post).map FuncDesc.name) (pre ++ d :: post)
      = pre ++ { d with
          description := strReplace d.description "[plugins]"
            (joinedPluginNames ((pre ++ d :: post).map FuncDesc.name)) } :: post := by
    rw [modify_plugin_loader_des, if_pos hmem,
      replaceFirstPluginLoader_append _ pre _ hpre]
    rw [replaceFirstPluginLoader, if_pos hd]
  refine ⟨h1, ?_, by simp⟩
  rw [h1]
  rw [modify_plugin_loader_des, if_pos hmem,
    replaceFirstPluginLoader_append _ pre _ hpre]
  rw [replaceFirstPluginLoader]
  rw [if_pos (show FuncDesc.name { d with
        description := strReplace d.description "[plugins]"
          (joinedPluginNames ((pre ++ d :: post).map FuncDesc.name)) } = "plugin_loader" from hd)]
  have hfix : strReplace
      (strReplace d.description "[plugins]"
        (joinedPluginNames ((pre ++ d :: post).map FuncDesc.name)))
      "[plugins]" (joinedPluginNames ((pre ++ d :: post).map FuncDesc.name))
      = strReplace d.description "[plugins]"
          (joinedPluginNames ((pre ++ d :: post).map FuncDesc.name)) := by
    rw [strReplace, replaceChars_of_not_hasSub _ _ _ htok]
  rw [hfix]

/-- C8 witness: the substitution theorem on the spec's own example —
registry `plugin_loader, X, Y` with the token in the meta description:
the rendered description contains exactly `X,Y`, and the second run
changes nothing. -/
theorem c8_witness :
    modify_plugin_loader_des ["plugin_loader", "X", "Y"]
      [{ name := "plugin_loader", description := "use [plugins] now" },
       { name := "X", description := "x" }, { name := "Y", description := "y" }]
      = [{ name := "plugin_loader", description := "use X,Y now" },
         { name := "X", description := "x" }, { name := "Y", description := "y" }]
    ∧ modify_plugin_loader_des ["plugin_loader", "X", "Y"]
        (modify_plugin_loader_des ["plugin_loader", "X", "Y"]
          [{ name := "plugin_loader", description := "use [plugins] now" },
           { name := "X", description := "x" }, { name := "Y", description := "y" }])
      = modify_plugin_loader_des ["plugin_loader", "X", "Y"]
          [{ name := "plugin_loader", description := "use [plugins] now" },
           { name := "X", description := "x" }, { name := "Y", description := "y" }]
    ∧ "plugin_loader" ∉ (["plugin_loader", "X", "Y"].filter (fun n => n ≠ "plugin_loader")) := by
  have h := c8_plugin_loader_substitution []
    [{ name := "X", description := "x" }, { name := "Y", description := "y" }]
    { name := "plugin_loader", description := "use [plugins] now" }
    (by simp) rfl (by decide)
  refine ⟨h.1.trans (by decide), h.2.1, by decide⟩

/-- One forced-addition conditional of `register_config_functions`:
if the capability name is not in the configured list, append it. -/
def forceAdd (f : String) (cf : List String) : List String :=
  if f ∈ cf then cf else cf ++ [f]

/-- The forced names of `register_config_functions`, in the order of its
conditionals. -/
def forcedFunctions : List String :=
  ["send_email", "save_weather_to_db", "onvif_camera_control", "vision_camera_analysis"]

/-- The assembly step of `register_config_functions`: the configured list
with the four forced plugins appended when missing, each conditional
checking the list the previous one produced. -/
def addForcedFunctions (cf : List String) : List String :=
  forceAdd "vision_camera_analysis"
    (forceAdd "onvif_camera_control"
      (forceAdd "save_weather_to_db"
        (forceAdd "send_email" cf)))

/-- C9 counterexample: a user-configured list that already mentions
`send_email` twice keeps both copies — the assembled list contains the
forced name twice, not exactly once as the claim states. -/
theorem c9_counterexample :
    (addForcedFunctions ["send_email", "send_email"]).count "send_email" = 2
    ∧ (2 : Nat) ≠ 1 := by
  refine ⟨by decide, by decide⟩

/-- Counting survives filtering by a predicate the counted element
satisfies. -/
theorem count_filter_of_pos {α : Type} [DecidableEq α] (p : α → Bool) (a : α)
    (hp : p a = true) : ∀ l : List α, (l.filter p).count a = l.count a := by
  intro l
  induction l with
  | nil => rfl
  | cons b l ih =>
    rw [List.filter_cons]
    by_cases hpb : p b = true
    · rw [if_pos (by simp [hpb])]
      rw [List.count_cons, List.count_cons, ih]
    · have hba : ¬ b = a := by
        intro hba
        rw [hba, hp] at hpb
        exact hpb rfl
      rw [if_neg (by simp [hpb])]
      rw [ih, List.count_cons]
      simp [hba]

/-- C9 (amended): for every user-configured capability list, the
assembled registration list is the configured list followed by exactly
the missing forced names in the fixed order `send_email`,
`save_weather_to_db`, `onvif_camera_control`, `vision_camera_analysis`;
hence every forced name is present, names already configured are not
appended again, and each forced name occurs exactly once provided the
configured list did not itself repeat it (a repeated configured name
survives, which is what the counterexample exhibits). -/
theorem c9_forced_inclusion (cf : List String) :
    addForcedFunctions cf = cf ++ forcedFunctions.filter (fun f => ¬ f ∈ cf)
    ∧ (∀ f ∈ forcedFunctions, f ∈ addForcedFunctions cf)
    ∧ (∀ f ∈ forcedFunctions, cf.count f ≤ 1 → (addForcedFunctions cf).count f = 1) := by
  have hmain : addForcedFunctions cf = cf ++ forcedFunctions.filter (fun f => ¬ f ∈ cf) := by
    simp only [addForcedFunctions, forceAdd, forcedFunctions, List.filter_cons, List.filter_nil]
    by_cases h1 : "send_email" ∈ cf <;>
      by_cases h2 : "save_weather_to_db" ∈ cf <;>
        by_cases h3 : "onvif_camera_control" ∈ cf <;>
          by_cases h4 : "vision_camera_analysis" ∈ cf <;>
            simp [h1, h2, h3, h4, List.mem_append]
  refine ⟨hmain, ?_, ?_⟩
  · intro f hf
    rw [hmain]
    by_cases h : f ∈ cf
    · exact List.mem_append_left _ h
    · refine List.mem_append_right _ ?_
      rw [List.mem_filter]
      exact ⟨hf, by simp [h]⟩
  · intro f hf hcount
    rw [hmain, List.count_append]
    by_cases h : f ∈ cf
    · have hpos : 0 < cf.count f := List.count_pos_iff.mpr h
      have hz : (forcedFunctions.filter (fun f => ¬ f ∈ cf)).count f = 0 := by
        apply List.count_eq_zero_of_not_mem
        intro hmem
        rw [List.mem_filter] at hmem
        simp [h] at hmem
      omega
    · have hz : cf.count f = 0 := List.count_eq_zero_of_not_mem h
      have hk : (forcedFunctions.filter (fun f => ¬ f ∈ cf)).count f
          = forcedFunctions.count f :=
        count_filter_of_pos _ f (by simp [h]) forcedFunctions
      have hone : forcedFunctions.count f = 1 := by
        fin_cases hf <;> decide
      omega

/-- C9 witness: a configured list missing every forced name gets all four
appended after it, each exactly once. -/
theorem c9_witness :
    addForcedFunctions ["get_time"]
      = ["get_time"] ++ forcedFunctions.filter (fun f => ¬ f ∈ ["get_time"])
    ∧ "send_email" ∈ addForcedFunctions ["get_time"]
    ∧ (addForcedFunctions ["get_time"]).count "send_email" = 1 :=
  ⟨(c9_forced_inclusion ["get_time"]).1,
   (c9_forced_inclusion ["get_time"]).2.1 "send_email" (by decide),
   (c9_forced_inclusion ["get_time"]).2.2 "send_email" (by decide) (by decide)⟩

/-- One cached value of `WeatherCachePool`: the opaque payload, the
creation and expiry timestamps, and the subject location.  Timestamps
(`time.time()` values) are modelled as integer seconds. -/
structure CacheEntry (V : Type) where
  data : V
  created_at : Int
  expires_at : Int
  location : String
deriving DecidableEq

/-- The `_stats` counters of `WeatherCachePool`. -/
structure CacheStats where
  weather_hits : Nat
  weather_misses : Nat
  city_hits : Nat
  city_misses : Nat
  evictions : Nat
deriving DecidableEq

/-- A composite cache key, i.e. the character list of the Python key
string. -/
abbrev CKey := List Char

/-- The character list of the `weather_` key prefix. -/
def weatherPre : CKey := ['w', 'e', 'a', 't', 'h', 'e', 'r', '_']

/-- The character list of the `city_` key prefix. -/
def cityPre : CKey := ['c', 'i', 't', 'y', '_']

/-- The state of one `WeatherCachePool`: the construction-time
configuration, the two namespace stores, the shared LRU access index
(all three insertion-ordered dicts) and the counters. -/
structure WeatherCachePool (V : Type) where
  weather_cache_ttl : Int
  city_cache_ttl : Int
  max_cache_size : Nat
  enable_async_refresh : Bool
  weather_cache : List (CKey × CacheEntry V)
  city_cache : List (CKey × CacheEntry V)
  access_order : List (CKey × Int)
  stats : CacheStats
deriving DecidableEq

/-- `WeatherCachePool.__init__`: the configured TTLs, capacity and
refresh flag with empty stores and zeroed counters. -/
def mkWeatherCachePool (V : Type) (wttl cttl : Int) (maxSize : Nat) (flag : Bool) :
    WeatherCachePool V :=
  { weather_cache_ttl := wttl, city_cache_ttl := cttl, max_cache_size := maxSize,
    enable_async_refresh := flag, weather_cache := [], city_cache := [],
    access_order := [], stats := ⟨0, 0, 0, 0, 0⟩ }

/-- The time-bucket component of a weather key, modelling
`datetime.now().strftime` with the source's `%Y%m%d_%H` (hour) or
`%Y%m%d` (day) format: two instants render to the same bucket string
exactly when they fall in the same hour (resp. day), so the bucket is
modelled as the rendered floor-quotient of the timestamp by the bucket
width. -/
def timeBucketKey (now : Int) (hour_precision : Bool) : CKey :=
  (toString (Int.fdiv now (if hour_precision then 3600 else 86400))).data

/-- `WeatherCachePool._generate_weather_key`:
`f"weather_\x7blocation\x7d_\x7btime_key\x7d"`. -/
def generate_weather_key (now : Int) (location : String) (hour_precision : Bool) : CKey :=
  weatherPre ++ location.data ++ ['_'] ++ timeBucketKey now hour_precision

/-- `WeatherCachePool._generate_city_key`: `f"city_\x7blocation\x7d"`. -/
def generate_city_key (location : String) : CKey :=
  cityPre ++ location.data

/-- `WeatherCachePool._is_expired`: strictly past the expiry stamp. -/
def is_expired {V : Type} (now : Int) (e : CacheEntry V) : Bool :=
  now > e.expires_at

/-- `WeatherCachePool._need_refresh`: false when the async-refresh flag
is off; otherwise true when the remaining TTL has fallen strictly below
`total_ttl * (1 - refresh_threshold)` — the threshold is a genuine
fraction, so this comparison is taken over the rationals. -/
def need_refresh {V : Type} (pool : WeatherCachePool V) (now : Int) (e : CacheEntry V)
    (refresh_threshold : Rat) : Bool :=
  if pool.enable_async_refresh then
    decide (((e.expires_at - now : Int) : Rat)
      < ((e.expires_at - e.created_at : Int) : Rat) * (1 - refresh_threshold))
  else false

/-- Insert a pair into a list kept ascending by access time, after all
pairs of less-or-equal time (so repeated equal stamps keep their
relative order). -/
def insertByTime (p : CKey × Int) : List (CKey × Int) → List (CKey × Int)
  | [] => [p]
  | q :: rest => if p.2 < q.2 then p :: q :: rest else q :: insertByTime p rest

/-- Python `sorted(access_order.items(), key=lambda x: x[1])`: the stable
ascending sort of the access index by last-access time. -/
def sortByAccessTime (l : List (CKey × Int)) : List (CKey × Int) :=
  l.foldl (fun acc p => insertByTime p acc) []

/-- One iteration of the eviction loop of `_evict_lru`: pop the key from
the store its prefix selects, pop it from the access index, and count one
eviction. -/
def removeEvicted {V : Type} (pool : WeatherCachePool V) (k : CKey) : WeatherCachePool V :=
  let pool1 :=
    if weatherPre.isPrefixOf k then
      { pool with weather_cache := dremove pool.weather_cache k }
    else if cityPre.isPrefixOf k then
      { pool with city_cache := dremove pool.city_cache k }
    else pool
  { pool1 with access_order := dremove pool1.access_order k,
               stats := { pool1.stats with evictions := pool1.stats.evictions + 1 } }

/-- `WeatherCachePool._evict_lru`: when the total entry count across both
namespaces has reached the capacity, remove the
`total - max_cache_size + 1` least recently accessed keys. -/
def _evict_lru {V : Type} (pool : WeatherCachePool V) : WeatherCachePool V :=
  let total := pool.weather_cache.length + pool.city_cache.length
  if total < pool.max_cache_size then pool
  else
    ((sortByAccessTime pool.access_order).take (total - pool.max_cache_size + 1)).foldl
      (fun p q => removeEvicted p q.1) pool

/-- `WeatherCachePool.get_weather_data`: look the hour-bucketed key up;
a present, unexpired entry refreshes its access stamp, counts a hit and
returns the payload; a present expired entry is deleted from store and
index; any miss counts a miss and returns `None`. -/
def get_weather_data {V : Type} (pool : WeatherCachePool V) (now : Int) (location : String) :
    Option V × WeatherCachePool V :=
  let ck := generate_weather_key now location true
  match dlookup ck pool.weather_cache with
  | some e =>
    if is_expired now e then
      (none,
       { pool with weather_cache := dremove pool.weather_cache ck,
                   access_order := dremove pool.access_order ck,
                   stats := { pool.stats with
                     weather_misses := pool.stats.weather_misses + 1 } })
    else
      (some e.data,
       { pool with access_order := dinsert pool.access_order ck now,
                   stats := { pool.stats with
                     weather_hits := pool.stats.weather_hits + 1 } })
  | none =>
    (none,
     { pool with stats := { pool.stats with
         weather_misses := pool.stats.weather_misses + 1 } })

/-- `WeatherCachePool.set_weather_data`: store the entry with
`created_at = now`, `expires_at = now + weather_cache_ttl` under the
hour-bucketed key, stamp the access index, then run LRU eviction. -/
def set_weather_data {V : Type} (pool : WeatherCachePool V) (now : Int) (location : String)
    (weather_data : V) : WeatherCachePool V :=
  let ck := generate_weather_key now location true
  let e : CacheEntry V :=
    { data := weather_data, created_at := now,
      expires_at := now + pool.weather_cache_ttl, location := location }
  _evict_lru
    { pool with weather_cache := dinsert pool.weather_cache ck e,
                access_order := dinsert pool.access_order ck now }

/-- `WeatherCachePool.get_city_info`: as `get_weather_data` for the city
namespace. -/
def get_city_info {V : Type} (pool : WeatherCachePool V) (now : Int) (location : String) :
    Option V × WeatherCachePool V :=
  let ck := generate_city_key location
  match dlookup ck pool.city_cache with
  | some e =>
    if is_expired now e then
      (none,
       { pool with city_cache := dremove pool.city_cache ck,
                   access_order := dremove pool.access_order ck,
                   stats := { pool.stats with
                     city_misses := pool.stats.city_misses + 1 } })
    else
      (some e.data,
       { pool with access_order := dinsert pool.access_order ck now,
                   stats := { pool.stats with
                     city_hits := pool.stats.city_hits + 1 } })
  | none =>
    (none,
     { pool with stats := { pool.stats with
         city_misses := pool.stats.city_misses + 1 } })

/-- `WeatherCachePool.set_city_info`: as `set_weather_data` for the city
namespace and TTL. -/
def set_city_info {V : Type} (pool : WeatherCachePool V) (now : Int) (location : String)
    (city_info : V) : WeatherCachePool V :=
  let ck := generate_city_key location
  let e : CacheEntry V :=
    { data := city_info, created_at := now,
      expires_at := now + pool.city_cache_ttl, location := location }
  _evict_lru
    { pool with city_cache := dinsert pool.city_cache ck e,
                access_order := dinsert pool.access_order ck now }

/-- `WeatherCachePool.clear_cache`: empty both stores and the access
index, leaving the counters alone. -/
def clear_cache {V : Type} (pool : WeatherCachePool V) : WeatherCachePool V :=
  { pool with weather_cache := [], city_cache := [], access_order := [] }

/-- `WeatherCachePool.clean_expired`: collect the expired weather keys
and delete each from the weather store and the access index, then do the
same for the city namespace. -/
def clean_expired {V : Type} (pool : WeatherCachePool V) (now : Int) : WeatherCachePool V :=
  let expiredW := (pool.weather_cache.filter (fun p => now > p.2.expires_at)).map Prod.fst
  let pool1 :=
    { pool with
        weather_cache := pool.weather_cache.filter (fun p => ¬ p.1 ∈ expiredW),
        access_order := pool.access_order.filter (fun p => ¬ p.1 ∈ expiredW) }
  let expiredC := (pool1.city_cache.filter (fun p => now > p.2.expires_at)).map Prod.fst
  { pool1 with
      city_cache := pool1.city_cache.filter (fun p => ¬ p.1 ∈ expiredC),
      access_order := pool1.access_order.filter (fun p => ¬ p.1 ∈ expiredC) }

/-- The keys of an association-list dict. -/
def keysOf {K α : Type} (d : List (K × α)) : List K :=
  d.map Prod.fst

/-- The reachable-state invariant of a `WeatherCachePool`: the three
dicts have unique keys (true of every Python dict), every weather key
carries the `weather_` prefix and every city key the `city_` prefix, and
the access index holds exactly the keys of the two stores. -/
def PoolWf {V : Type} (pool : WeatherCachePool V) : Prop :=
  (keysOf pool.weather_cache).Nodup
  ∧ (keysOf pool.city_cache).Nodup
  ∧ (keysOf pool.access_order).Nodup
  ∧ (∀ k ∈ keysOf pool.weather_cache, weatherPre.isPrefixOf k = true)
  ∧ (∀ k ∈ keysOf pool.city_cache, cityPre.isPrefixOf k = true)
  ∧ (∀ k ∈ keysOf pool.access_order,
      k ∈ keysOf pool.weather_cache ∨ k ∈ keysOf pool.city_cache)
  ∧ (∀ k ∈ keysOf pool.weather_cache, k ∈ keysOf pool.access_order)
  ∧ (∀ k ∈ keysOf pool.city_cache, k ∈ keysOf pool.access_order)

instance poolWfDecidable {V : Type} (pool : WeatherCachePool V) : Decidable (PoolWf pool) := by
  unfold PoolWf
  infer_instance

/-- C7 counterexample: on a pool constructed with
`enable_async_refresh = False` (a legitimate configuration), an entry
whose TTL is 90% elapsed — well past the 0.8 threshold — still reports
no refresh need, so the claimed "if and only if" fails. -/
theorem c7_counterexample :
    need_refresh (mkWeatherCachePool Nat 100 86400 50 false) 90
      { data := 0, created_at := 0, expires_at := 100, location := "x" } (mkRat 8 10) = false
    ∧ (((90 : Int) - 0 : Int) : Rat) / (((100 : Int) - 0 : Int) : Rat) > mkRat 8 10 := by
  refine ⟨by decide, by norm_num [Rat.mkRat_eq_div]⟩

/-- C7 (amended): for every cache entry with `created_at < expires_at`
and every threshold in (0,1): when the pool's async-refresh feature is
enabled, `_need_refresh` returns true iff the fraction of TTL already
elapsed exceeds the threshold; when the feature is disabled it is
constantly false; and in either case it is false at the moment the entry
was created (immediately after the `Put`). -/
theorem c7_need_refresh {V : Type} (pool : WeatherCachePool V) (e : CacheEntry V)
    (now : Int) (th : Rat) (h0 : 0 < th) (h1 : th < 1)
    (hce : e.created_at < e.expires_at) :
    (pool.enable_async_refresh = true →
      (need_refresh pool now e th = true
        ↔ ((now - e.created_at : Int) : Rat) / ((e.expires_at - e.created_at : Int) : Rat) > th))
    ∧ (pool.enable_async_refresh = false → need_refresh pool now e th = false)
    ∧ (now = e.created_at → need_refresh pool now e th = false) := by
  have hT : (0 : Rat) < ((e.expires_at - e.created_at : Int) : Rat) := by
    rw [Int.cast_pos]
    omega
  refine ⟨fun hflag => ?_, fun hflag => by simp [need_refresh, hflag], fun hnow => ?_⟩
  · rw [need_refresh, if_pos hflag, decide_eq_true_eq, gt_iff_lt, lt_div_iff₀ hT]
    have hsplit : ((e.expires_at - now : Int) : Rat)
        = ((e.expires_at - e.created_at : Int) : Rat) - ((now - e.created_at : Int) : Rat) := by
      push_cast
      ring
    rw [hsplit]
    constructor <;> intro h <;> nlinarith
  · subst hnow
    by_cases hflag : pool.enable_async_refresh
    · rw [need_refresh, if_pos hflag, decide_eq_false_iff_not, not_lt]
      have hz : ((e.expires_at - e.created_at : Int) : Rat)
          = ((e.expires_at - e.created_at : Int) : Rat) := rfl
      nlinarith
    · simp [need_refresh, hflag]

/-- C7 witness: with the feature enabled, a 100-second TTL and threshold
0.8, the entry needs a refresh at t = 85 and not at t = 10 — the spec's
own example. -/
theorem c7_witness :
    need_refresh (mkWeatherCachePool Nat 100 86400 50 true) 85
      { data := (0 : Nat), created_at := 0, expires_at := 100, location := "x" }
      (mkRat 8 10) = true
    ∧ need_refresh (mkWeatherCachePool Nat 100 86400 50 true) 10
        { data := (0 : Nat), created_at := 0, expires_at := 100, location := "x" }
        (mkRat 8 10) = false :=
  ⟨((c7_need_refresh (mkWeatherCachePool Nat 100 86400 50 true)
      { data := (0 : Nat), created_at := 0, expires_at := 100, location := "x" } 85 (mkRat 8 10)
      (by norm_num [Rat.mkRat_eq_div]) (by norm_num [Rat.mkRat_eq_div]) (by decide)).1 rfl).mpr
      (by norm_num [Rat.mkRat_eq_div]),
   by
    have h := ((c7_need_refresh (mkWeatherCachePool Nat 100 86400 50 true)
      { data := (0 : Nat), created_at := 0, expires_at := 100, location := "x" } 10 (mkRat 8 10)
      (by norm_num [Rat.mkRat_eq_div]) (by norm_num [Rat.mkRat_eq_div]) (by decide)).1 rfl)
    rcases hb : need_refresh (mkWeatherCachePool Nat 100 86400 50 true) 10
      { data := (0 : Nat), created_at := 0, expires_at := 100, location := "x" } (mkRat 8 10)
      with _ | _
    · rfl
    · exact absurd (h.mp hb) (by norm_num [Rat.mkRat_eq_div])⟩

/-- Looking up a key right after assigning it yields the assigned
value. -/
theorem dlookup_dinsert_self {K : Type} [DecidableEq K] {α : Type}
    (d : List (K × α)) (k : K) (v : α) : dlookup k (dinsert d k v) = some v := by
  rw [dinsert]
  by_cases h : d.any (fun p => p.1 = k)
  · rw [if_pos h]
    induction d with
    | nil => simp at h
    | cons p d ih =>
      by_cases hp : p.1 = k
      · simp [dlookup, hp]
      · rw [List.any_cons] at h
        simp only [hp, decide_False, Bool.false_or] at h
        simpa [dlookup, hp] using ih h
  · rw [if_neg h]
    induction d with
    | nil => simp [dlookup]
    | cons p d ih =>
      rw [List.any_cons] at h
      have hp : ¬ p.1 = k := by
        intro hk
        simp [hk] at h
      rw [List.cons_append, dlookup, if_neg hp]
      exact ih (by simpa [hp] using h)

/-- Assignment grows a dict by at most one pair. -/
theorem length_dinsert_le {K : Type} [DecidableEq K] {α : Type}
    (d : List (K × α)) (k : K) (v : α) : (dinsert d k v).length ≤ d.length + 1 := by
  rw [dinsert]
  split
  · simp
  · simp

/-- `_evict_lru` does nothing while the pool is below capacity. -/
theorem evict_lru_of_lt {V : Type} (pool : WeatherCachePool V)
    (h : pool.weather_cache.length + pool.city_cache.length < pool.max_cache_size) :
    _evict_lru pool = pool := by
  simp [_evict_lru, h]

/-- C2 counterexample, two concrete runs falsifying both halves of the
claim.  First: TTL 600, `Put` at t = 0, `Get` at t = 600 = `expires_at`
(same hour bucket): `now ≥ expires_at`, yet the expiry test is strict and
the `Get` returns the value.  Second: TTL 3600, `Put` at t = 1800,
`Get` at t = 3600 < `expires_at` = 5400 directly after the `Put` with no
eviction: the wall clock has crossed an hour boundary, the lookup key's
bucket differs, and the `Get` misses even though the entry is
unexpired. -/
theorem c2_counterexample :
    (get_weather_data (set_weather_data (mkWeatherCachePool Nat 600 86400 50 true) 0 "bj" 42)
        600 "bj").1 = some 42
    ∧ (600 : Int) ≥ 0 + 600
    ∧ (get_weather_data (set_weather_data (mkWeatherCachePool Nat 3600 86400 50 true) 1800 "sh" 7)
        3600 "sh").1 = none
    ∧ (3600 : Int) < 1800 + 3600 := by
  refine ⟨by decide, by decide, by decide, by decide⟩

/-- C2 (amended): a `Get` whose key finds no unexpired entry — in
particular whenever every entry stored under the queried key has
`expires_at < now` — returns not-found (the expiry test is strict, so at
`now = expires_at` exactly the entry is still served); and a `Get`
performed directly after the `Put` that created the entry, with no
intervening eviction (the pool stays below capacity), returns the stored
value for any `now ≤ expires_at` whose wall clock falls in the same hour
bucket as the `Put` — in a later bucket the lookup key differs and the
`Get` misses even before expiry. -/
theorem c2_ttl_get {V : Type} (pool : WeatherCachePool V) (loc : String) :
    (∀ now : Int,
      (∀ e : CacheEntry V,
        dlookup (generate_weather_key now loc true) pool.weather_cache = some e →
          e.expires_at < now) →
      (get_weather_data pool now loc).1 = none)
    ∧ (∀ (tPut tGet : Int) (v : V),
        pool.weather_cache.length + pool.city_cache.length + 1 < pool.max_cache_size →
        timeBucketKey tGet true = timeBucketKey tPut true →
        tGet ≤ tPut + pool.weather_cache_ttl →
        (get_weather_data (set_weather_data pool tPut loc v) tGet loc).1 = some v) := by
  constructor
  · intro now hexp
    rw [get_weather_data]
    rcases hl : dlookup (generate_weather_key now loc true) pool.weather_cache with _ | e
    · simp
    · have : is_expired now e = true := by
        rw [is_expired]
        simpa using hexp e hl
      simp [this]
  · intro tPut tGet v hsize hbucket httl
    have hkey : generate_weather_key tGet loc true = generate_weather_key tPut loc true := by
      rw [generate_weather_key, generate_weather_key, hbucket]
    rw [set_weather_data]
    rw [evict_lru_of_lt]
    · rw [get_weather_data]
      simp only [hkey]
      rw [dlookup_dinsert_self]
      have hne : is_expired tGet
          ({ data := v, created_at := tPut, expires_at := tPut + pool.weather_cache_ttl,
             location := loc } : CacheEntry V) = false := by
        rw [is_expired]
        simpa using httl
      simp [hne]
    · simp only []
      calc (dinsert pool.weather_cache (generate_weather_key tPut loc true)
              { data := v, created_at := tPut, expires_at := tPut + pool.weather_cache_ttl,
                location := loc }).length + pool.city_cache.length
          ≤ pool.weather_cache.length + 1 + pool.city_cache.length := by
            have := length_dinsert_le pool.weather_cache (generate_weather_key tPut loc true)
              ({ data := v, created_at := tPut, expires_at := tPut + pool.weather_cache_ttl,
                 location := loc } : CacheEntry V)
            omega
        _ < pool.max_cache_size := by omega

/-- C2 witness: TTL 600, `Put` at t = 0, `Get`s at t = 599 (same bucket,
unexpired: hit) — and a pool whose only stored entry under the key is
expired reports a miss. -/
theorem c2_witness :
    (get_weather_data (set_weather_data (mkWeatherCachePool Nat 600 86400 50 true) 0 "bj" 42)
        599 "bj").1 = some 42
    ∧ (get_weather_data
        ({ mkWeatherCachePool Nat 600 86400 50 true with
            weather_cache := [(generate_weather_key 700 "bj" true,
              { data := 42, created_at := 0, expires_at := 600, location := "bj" })],
            access_order := [(generate_weather_key 700 "bj" true, (0 : Int))] })
        700 "bj").1 = none :=
  ⟨(c2_ttl_get (mkWeatherCachePool Nat 600 86400 50 true) "bj").2 0 599 42
      (by decide) (by decide) (by decide),
   (c2_ttl_get _ "bj").1 700 (by decide)⟩

/-- No key starts with both the `weather_` and the `city_` prefix. -/
theorem not_weatherPre_cityPre (k : CKey) :
    weatherPre.isPrefixOf k = true → cityPre.isPrefixOf k = true → False := by
  intro h1 h2
  match k with
  | [] => simp [weatherPre, List.isPrefixOf] at h1
  | c :: rest =>
    simp only [weatherPre, cityPre, List.isPrefixOf, Bool.and_eq_true, beq_iff_eq] at h1 h2
    have := h1.1
    have := h2.1
    subst this
    simp_all

/-- Removing an absent key is a no-op. -/
theorem dremove_of_not_mem {K : Type} [DecidableEq K] {α : Type}
    (d : List (K × α)) (k : K) (h : ¬ k ∈ keysOf d) : dremove d k = d := by
  rw [dremove]
  apply List.filter_eq_self.mpr
  intro p hp
  have : p.1 ∈ keysOf d := List.mem_map_of_mem Prod.fst hp
  simp only [decide_eq_true_eq]
  intro hk
  exact h (hk ▸ this)

/-- `keysOf` of a cons. -/
theorem keysOf_cons {K α : Type} (q : K × α) (l : List (K × α)) :
    keysOf (q :: l) = q.1 :: keysOf l := rfl

/-- Removal keys commute into one filtered pass. -/
theorem filter_dremove {α : Type} (d : List (CKey × α)) (k : CKey) (ks : List CKey) :
    (dremove d k).filter (fun p => ¬ p.1 ∈ ks) = d.filter (fun p => ¬ p.1 ∈ (k :: ks)) := by
  rw [dremove, List.filter_filter]
  apply List.filter_congr
  intro p _
  by_cases h1 : p.1 = k <;> by_cases h2 : p.1 ∈ ks <;> simp [h1, h2]

/-- One eviction step under the prefix discipline: whichever branch the
prefix test takes, the step removes the key from both stores (the store
the key cannot live in is untouched either way) and from the index, and
counts one eviction. -/
theorem removeEvicted_eq {V : Type} (pool : WeatherCachePool V) (k : CKey)
    (hw : ∀ x ∈ keysOf pool.weather_cache, weatherPre.isPrefixOf x = true)
    (hc : ∀ x ∈ keysOf pool.city_cache, cityPre.isPrefixOf x = true) :
    removeEvicted pool k
      = { pool with
          weather_cache := dremove pool.weather_cache k,
          city_cache := dremove pool.city_cache k,
          access_order := dremove pool.access_order k,
          stats := { pool.stats with evictions := pool.stats.evictions + 1 } } := by
  rw [removeEvicted]
  by_cases hwp : weatherPre.isPrefixOf k = true
  · have hkc : ¬ k ∈ keysOf pool.city_cache := by
      intro hk
      exact not_weatherPre_cityPre k hwp (hc k hk)
    rw [if_pos hwp, dremove_of_not_mem pool.city_cache k hkc]
  · have hkw : ¬ k ∈ keysOf pool.weather_cache := by
      intro hk
      exact hwp (hw k hk)
    by_cases hcp : cityPre.isPrefixOf k = true
    · rw [if_neg (by simp [hwp]), if_pos hcp, dremove_of_not_mem pool.weather_cache k hkw]
    · have hkc : ¬ k ∈ keysOf pool.city_cache := by
        intro hk
        exact hcp (hc k hk)
      rw [if_neg (by simp [hwp]), if_neg (by simp [hcp]),
        dremove_of_not_mem pool.weather_cache k hkw, dremove_of_not_mem pool.city_cache k hkc]

/-- Filtered stores keep their key-prefix discipline. -/
theorem keysOf_filter_subset {K α : Type} (d : List (K × α)) (p : K × α → Bool) :
    ∀ x ∈ keysOf (d.filter p), x ∈ keysOf d := by
  intro x hx
  rw [keysOf, List.mem_map] at hx
  obtain ⟨q, hq, hqx⟩ := hx
  exact hqx ▸ List.mem_map_of_mem Prod.fst (List.mem_of_mem_filter hq)

/-- The eviction loop of `_evict_lru` over any worklist, under the prefix
discipline: it filters the worklist's keys out of both stores and the
index and counts one eviction per worklist element. -/
theorem foldl_removeEvicted {V : Type} :
    ∀ (l : List (CKey × Int)) (pool : WeatherCachePool V),
    (∀ x ∈ keysOf pool.weather_cache, weatherPre.isPrefixOf x = true) →
    (∀ x ∈ keysOf pool.city_cache, cityPre.isPrefixOf x = true) →
    l.foldl (fun p q => removeEvicted p q.1) pool
      = { pool with
          weather_cache := pool.weather_cache.filter (fun p => ¬ p.1 ∈ keysOf l),
          city_cache := pool.city_cache.filter (fun p => ¬ p.1 ∈ keysOf l),
          access_order := pool.access_order.filter (fun p => ¬ p.1 ∈ keysOf l),
          stats := { pool.stats with evictions := pool.stats.evictions + l.length } } := by
  intro l
  induction l with
  | nil =>
    intro pool _ _
    obtain ⟨f1, f2, f3, f4, w, c, a, st⟩ := pool
    obtain ⟨s1, s2, s3, s4, s5⟩ := st
    simp [keysOf]
  | cons q l ih =>
    intro pool hw hc
    rw [List.foldl_cons, removeEvicted_eq pool q.1 hw hc]
    rw [ih _ (fun x hx => hw x (keysOf_filter_subset _ _ x hx))
          (fun x hx => hc x (keysOf_filter_subset _ _ x hx))]
    obtain ⟨f1, f2, f3, f4, w, c, a, st⟩ := pool
    obtain ⟨s1, s2, s3, s4, s5⟩ := st
    simp only [keysOf_cons, List.length_cons]
    rw [filter_dremove w q.1 (keysOf l), filter_dremove c q.1 (keysOf l),
      filter_dremove a q.1 (keysOf l)]
    have : s5 + 1 + l.length = s5 + (l.length + 1) := by omega
    rw [this]

/-- Membership through one sorted insertion. -/
theorem mem_insertByTime (p q : CKey × Int) :
    ∀ l : List (CKey × Int), q ∈ insertByTime p l ↔ q = p ∨ q ∈ l := by
  intro l
  induction l with
  | nil => simp [insertByTime]
  | cons r l ih =>
    rw [insertByTime]
    by_cases h : p.2 < r.2
    · simp [h]
    · rw [if_neg h]
      rw [List.mem_cons, ih, List.mem_cons]
      tauto

/-- One sorted insertion grows the list by one. -/
theorem length_insertByTime (p : CKey × Int) :
    ∀ l : List (CKey × Int), (insertByTime p l).length = l.length + 1 := by
  intro l
  induction l with
  | nil => rfl
  | cons r l ih =>
    rw [insertByTime]
    by_cases h : p.2 < r.2
    · simp [h]
    · simp [h, ih]

/-- One sorted insertion preserves ascending order. -/
theorem pairwise_insertByTime (p : CKey × Int) :
    ∀ l : List (CKey × Int), l.Pairwise (fun a b => a.2 ≤ b.2) →
      (insertByTime p l).Pairwise (fun a b => a.2 ≤ b.2) := by
  intro l
  induction l with
  | nil => intro _; simp [insertByTime]
  | cons r l ih =>
    intro h
    rw [List.pairwise_cons] at h
    rw [insertByTime]
    by_cases hp : p.2 < r.2
    · rw [if_pos hp, List.pairwise_cons]
      refine ⟨?_, List.pairwise_cons.mpr h⟩
      intro b hb
      rcases List.mem_cons.mp hb with hb | hb
      · subst hb
        omega
      · have := h.1 b hb
        omega
    · rw [if_neg hp, List.pairwise_cons]
      refine ⟨?_, ih h.2⟩
      intro b hb
      rcases (mem_insertByTime p b l).mp hb with hb | hb
      · subst hb
        omega
      · exact h.1 b hb

/-- Membership through the whole stable sort, fold form. -/
theorem mem_sortFold (q : CKey × Int) :
    ∀ (l acc : List (CKey × Int)),
      q ∈ l.foldl (fun acc p => insertByTime p acc) acc ↔ q ∈ acc ∨ q ∈ l := by
  intro l
  induction l with
  | nil => simp
  | cons r l ih =>
    intro acc
    rw [List.foldl_cons, ih, mem_insertByTime, List.mem_cons]
    tauto

/-- Length through the whole stable sort, fold form. -/
theorem length_sortFold :
    ∀ (l acc : List (CKey × Int)),
      (l.foldl (fun acc p => insertByTime p acc) acc).length = acc.length + l.length := by
  intro l
  induction l with
  | nil => simp
  | cons r l ih =>
    intro acc
    rw [List.foldl_cons, ih, length_insertByTime]
    simp only [List.length_cons]
    omega

/-- Order through the whole stable sort, fold form. -/
theorem pairwise_sortFold :
    ∀ (l acc : List (CKey × Int)), acc.Pairwise (fun a b => a.2 ≤ b.2) →
      (l.foldl (fun acc p => insertByTime p acc) acc).Pairwise (fun a b => a.2 ≤ b.2) := by
  intro l
  induction l with
  | nil => intro acc h; simpa using h
  | cons r l ih =>
    intro acc h
    rw [List.foldl_cons]
    exact ih _ (pairwise_insertByTime r acc h)

/-- The sort of the access index is a reordering: same members. -/
theorem mem_sortByAccessTime (q : CKey × Int) (l : List (CKey × Int)) :
    q ∈ sortByAccessTime l ↔ q ∈ l := by
  rw [sortByAccessTime, mem_sortFold]
  simp

/-- The sort of the access index preserves length. -/
theorem length_sortByAccessTime (l : List (CKey × Int)) :
    (sortByAccessTime l).length = l.length := by
  rw [sortByAccessTime, length_sortFold]
  simp

/-- The sort of the access index is ascending in last-access time. -/
theorem pairwise_sortByAccessTime (l : List (CKey × Int)) :
    (sortByAccessTime l).Pairwise (fun a b => a.2 ≤ b.2) := by
  rw [sortByAccessTime]
  exact pairwise_sortFold l [] (by simp)

/-- In a pairwise-ordered list, everything taken before a cut is related
to everything dropped after it. -/
theorem pairwise_take_drop {α : Type} {R : α → α → Prop} {l : List α}
    (h : l.Pairwise R) (n : Nat) :
    ∀ a ∈ l.take n, ∀ b ∈ l.drop n, R a b :=
  (List.pairwise_append.mp (by rwa [List.take_append_drop])).2.2

/-- C4 (confirmed): eviction runs after every `Put` (both `Put`s are, by
definition, an insertion followed by `_evict_lru`); below capacity the
eviction removes nothing; and once the total entry count across the
namespaces is at or above capacity it removes exactly the oldest
`count - capacity + 1` entries — the head of the ascending stable sort of
the access index, every kept entry being at least as recently accessed as
every removed one — from both stores and the index, incrementing the
eviction counter once per removed entry. -/
theorem c4_evict_exact {V : Type} (pool : WeatherCachePool V)
    (hwf : PoolWf pool)
    (hlen : pool.access_order.length = pool.weather_cache.length + pool.city_cache.length)
    (hcap : 1 ≤ pool.max_cache_size) :
    (∀ (now : Int) (loc : String) (v : V),
      set_weather_data pool now loc v
        = _evict_lru { pool with
            weather_cache := dinsert pool.weather_cache (generate_weather_key now loc true)
              { data := v, created_at := now, expires_at := now + pool.weather_cache_ttl,
                location := loc },
            access_order := dinsert pool.access_order (generate_weather_key now loc true) now })
    ∧ (∀ (now : Int) (loc : String) (v : V),
      set_city_info pool now loc v
        = _evict_lru { pool with
            city_cache := dinsert pool.city_cache (generate_city_key loc)
              { data := v, created_at := now, expires_at := now + pool.city_cache_ttl,
                location := loc },
            access_order := dinsert pool.access_order (generate_city_key loc) now })
    ∧ (pool.weather_cache.length + pool.city_cache.length < pool.max_cache_size →
        _evict_lru pool = pool)
    ∧ (pool.max_cache_size ≤ pool.weather_cache.length + pool.city_cache.length →
        _evict_lru pool
          = { pool with
              weather_cache := pool.weather_cache.filter (fun p => ¬ p.1 ∈ keysOf
                ((sortByAccessTime pool.access_order).take
                  (pool.weather_cache.length + pool.city_cache.length
                    - pool.max_cache_size + 1))),
              city_cache := pool.city_cache.filter (fun p => ¬ p.1 ∈ keysOf
                ((sortByAccessTime pool.access_order).take
                  (pool.weather_cache.length + pool.city_cache.length
                    - pool.max_cache_size + 1))),
              access_order := pool.access_order.filter (fun p => ¬ p.1 ∈ keysOf
                ((sortByAccessTime pool.access_order).take
                  (pool.weather_cache.length + pool.city_cache.length
                    - pool.max_cache_size + 1))),
              stats := { pool.stats with evictions := pool.stats.evictions
                + (pool.weather_cache.length + pool.city_cache.length
                    - pool.max_cache_size + 1) } }
        ∧ ((sortByAccessTime pool.access_order).take
            (pool.weather_cache.length + pool.city_cache.length
              - pool.max_cache_size + 1)).length
          = pool.weather_cache.length + pool.city_cache.length - pool.max_cache_size + 1
        ∧ (sortByAccessTime pool.access_order).Pairwise (fun a b => a.2 ≤ b.2)
        ∧ (∀ a ∈ (sortByAccessTime pool.access_order).take
              (pool.weather_cache.length + pool.city_cache.length
                - pool.max_cache_size + 1),
            ∀ b ∈ (sortByAccessTime pool.access_order).drop
              (pool.weather_cache.length + pool.city_cache.length
                - pool.max_cache_size + 1),
            a.2 ≤ b.2)
        ∧ (∀ q, q ∈ sortByAccessTime pool.access_order ↔ q ∈ pool.access_order)) := by
  obtain ⟨hnw, hnc, hna, hw, hc, hsync, hws, hcs⟩ := hwf
  refine ⟨fun now loc v => rfl, fun now loc v => rfl, evict_lru_of_lt pool, fun hge => ?_⟩
  have htake : ((sortByAccessTime pool.access_order).take
      (pool.weather_cache.length + pool.city_cache.length
        - pool.max_cache_size + 1)).length
      = pool.weather_cache.length + pool.city_cache.length - pool.max_cache_size + 1 := by
    rw [List.length_take, length_sortByAccessTime, hlen]
    omega
  refine ⟨?_, htake, pairwise_sortByAccessTime pool.access_order,
    pairwise_take_drop (pairwise_sortByAccessTime pool.access_order) _,
    fun q => mem_sortByAccessTime q pool.access_order⟩
  have hunfold : _evict_lru pool
      = if pool.weather_cache.length + pool.city_cache.length < pool.max_cache_size then pool
        else ((sortByAccessTime pool.access_order).take
            (pool.weather_cache.length + pool.city_cache.length
              - pool.max_cache_size + 1)).foldl
          (fun p q => removeEvicted p q.1) pool := rfl
  rw [hunfold, if_neg (by omega)]
  rw [foldl_removeEvicted _ pool hw hc, htake]

/-- A one-entry pool at capacity 1, for concrete eviction runs. -/
def demoPool4 : WeatherCachePool Nat :=
  { weather_cache_ttl := 3600, city_cache_ttl := 86400, max_cache_size := 1,
    enable_async_refresh := true,
    weather_cache := [(generate_weather_key 0 "a" true,
      { data := 5, created_at := 0, expires_at := 3600, location := "a" })],
    city_cache := [],
    access_order := [(generate_weather_key 0 "a" true, 0)],
    stats := ⟨0, 0, 0, 0, 0⟩ }

/-- C4 witness: evicting the capacity-1 pool with one entry removes that
entry from the store and the index and counts one eviction. -/
theorem c4_witness :
    _evict_lru demoPool4
      = { demoPool4 with
          weather_cache := [], city_cache := [], access_order := [],
          stats := { demoPool4.stats with evictions := 1 } } := by
  have h := (c4_evict_exact demoPool4 (by decide) (by decide) (by decide)).2.2.2 (by decide)
  rw [h.1]
  decide

/-- `any`-based key-presence test versus key membership. -/
theorem any_eq_mem_keysOf {K : Type} [DecidableEq K] {α : Type}
    (d : List (K × α)) (k : K) :
    d.any (fun p => p.1 = k) = true ↔ k ∈ keysOf d := by
  rw [List.any_eq_true, keysOf]
  constructor
  · rintro ⟨p, hp, hpk⟩
    simp only [decide_eq_true_eq] at hpk
    exact hpk ▸ List.mem_map_of_mem Prod.fst hp
  · intro hk
    rw [List.mem_map] at hk
    obtain ⟨p, hp, hpk⟩ := hk
    exact ⟨p, hp, by simp [hpk]⟩

/-- The key list after a dict assignment: unchanged when the key was
present, extended by the key when it was not. -/
theorem keysOf_dinsert {K : Type} [DecidableEq K] {α : Type}
    (d : List (K × α)) (k : K) (v : α) :
    keysOf (dinsert d k v)
      = if k ∈ keysOf d then keysOf d else keysOf d ++ [k] := by
  rw [dinsert]
  by_cases h : d.any (fun p => p.1 = k) = true
  · rw [if_pos h, if_pos ((any_eq_mem_keysOf d k).mp h), keysOf, keysOf, List.map_map]
    apply List.map_congr_left
    intro p _
    by_cases hp : p.1 = k
    · simp [hp]
    · simp [hp]
  · rw [if_neg h, if_neg (fun hm => h ((any_eq_mem_keysOf d k).mpr hm)), keysOf, keysOf,
      List.map_append]
    rfl

/-- Key membership after a dict assignment. -/
theorem mem_keysOf_dinsert {K : Type} [DecidableEq K] {α : Type}
    (d : List (K × α)) (k : K) (v : α) (x : K) :
    x ∈ keysOf (dinsert d k v) ↔ x ∈ keysOf d ∨ x = k := by
  rw [keysOf_dinsert]
  by_cases h : k ∈ keysOf d
  · rw [if_pos h]
    constructor
    · exact Or.inl
    · rintro (hx | rfl)
      · exact hx
      · exact h
  · rw [if_neg h]
    simp

/-- Key uniqueness survives a dict assignment. -/
theorem nodup_keysOf_dinsert {K : Type} [DecidableEq K] {α : Type}
    (d : List (K × α)) (k : K) (v : α) (h : (keysOf d).Nodup) :
    (keysOf (dinsert d k v)).Nodup := by
  rw [keysOf_dinsert]
  by_cases hm : k ∈ keysOf d
  · rwa [if_pos hm]
  · rw [if_neg hm]
    simp [List.nodup_append, h, hm]

/-- A successful dict lookup means the key is present. -/
theorem mem_of_dlookup_some {K : Type} [DecidableEq K] {α : Type}
    (d : List (K × α)) (k : K) (v : α) (h : dlookup k d = some v) : k ∈ keysOf d := by
  induction d with
  | nil => simp [dlookup] at h
  | cons p d ih =>
    rw [dlookup] at h
    by_cases hp : p.1 = k
    · rw [keysOf_cons, hp]
      exact List.mem_cons_self k (keysOf d)
    · rw [if_neg hp] at h
      rw [keysOf_cons]
      exact List.mem_cons_of_mem p.1 (ih h)

/-- Key membership after a dict removal. -/
theorem mem_keysOf_dremove {K : Type} [DecidableEq K] {α : Type}
    (d : List (K × α)) (k x : K) :
    x ∈ keysOf (dremove d k) ↔ x ∈ keysOf d ∧ ¬ x = k := by
  rw [keysOf, dremove]
  constructor
  · intro hx
    rw [List.mem_map] at hx
    obtain ⟨p, hp, rfl⟩ := hx
    have h1 := List.mem_of_mem_filter hp
    have h2 := List.of_mem_filter hp
    simp only [decide_eq_true_eq] at h2
    exact ⟨List.mem_map_of_mem Prod.fst h1, h2⟩
  · rintro ⟨hx, hxk⟩
    rw [keysOf, List.mem_map] at hx
    obtain ⟨p, hp, rfl⟩ := hx
    exact List.mem_map_of_mem Prod.fst (List.mem_filter_of_mem hp (by simpa using hxk))

/-- Key uniqueness survives any store filtering. -/
theorem nodup_keysOf_filter {K α : Type} (d : List (K × α)) (p : K × α → Bool)
    (h : (keysOf d).Nodup) : (keysOf (d.filter p)).Nodup :=
  List.Nodup.sublist (List.Sublist.map Prod.fst (List.filter_sublist d)) h

/-- A list is a prefix of itself with anything appended. -/
theorem isPrefixOf_append_self : ∀ (l t : List Char), l.isPrefixOf (l ++ t) = true := by
  intro l t
  induction l with
  | nil => simp [List.isPrefixOf]
  | cons c l ih => simpa [List.isPrefixOf] using ih

/-- Generated weather keys carry the weather prefix. -/
theorem weatherPre_isPrefixOf_generate (now : Int) (loc : String) (hp : Bool) :
    weatherPre.isPrefixOf (generate_weather_key now loc hp) = true := by
  rw [generate_weather_key, List.append_assoc, List.append_assoc]
  exact isPrefixOf_append_self weatherPre _

/-- Generated city keys carry the city prefix. -/
theorem cityPre_isPrefixOf_generate (loc : String) :
    cityPre.isPrefixOf (generate_city_key loc) = true :=
  isPrefixOf_append_self cityPre loc.data

/-- Key membership after filtering out a key set. -/
theorem mem_keysOf_filter_keys {α : Type} (d : List (CKey × α)) (ks : List CKey) (x : CKey) :
    x ∈ keysOf (d.filter (fun p => ¬ p.1 ∈ ks)) ↔ x ∈ keysOf d ∧ ¬ x ∈ ks := by
  rw [keysOf]
  constructor
  · intro hx
    rw [List.mem_map] at hx
    obtain ⟨p, hp, rfl⟩ := hx
    have h1 := List.mem_of_mem_filter hp
    have h2 := List.of_mem_filter hp
    simp only [decide_eq_true_eq] at h2
    exact ⟨List.mem_map_of_mem Prod.fst h1, h2⟩
  · rintro ⟨hx, hxk⟩
    rw [keysOf, List.mem_map] at hx
    obtain ⟨p, hp, rfl⟩ := hx
    exact List.mem_map_of_mem Prod.fst (List.mem_filter_of_mem hp (by simpa using hxk))

/-- One eviction step preserves the pool invariant. -/
theorem poolWf_removeEvicted {V : Type} (pool : WeatherCachePool V) (k : CKey)
    (h : PoolWf pool) : PoolWf (removeEvicted pool k) := by
  obtain ⟨hnw, hnc, hna, hw, hc, hsync, hws, hcs⟩ := h
  rw [removeEvicted_eq pool k hw hc]
  refine ⟨?_, ?_, ?_, ?_, ?_, ?_, ?_, ?_⟩
  · rw [dremove]
    exact nodup_keysOf_filter _ _ hnw
  · rw [dremove]
    exact nodup_keysOf_filter _ _ hnc
  · rw [dremove]
    exact nodup_keysOf_filter _ _ hna
  · intro x hx
    exact hw x ((mem_keysOf_dremove _ k x).mp hx).1
  · intro x hx
    exact hc x ((mem_keysOf_dremove _ k x).mp hx).1
  · intro x hx
    obtain ⟨hxa, hxk⟩ := (mem_keysOf_dremove _ k x).mp hx
    rcases hsync x hxa with hxw | hxc
    · exact Or.inl ((mem_keysOf_dremove _ k x).mpr ⟨hxw, hxk⟩)
    · exact Or.inr ((mem_keysOf_dremove _ k x).mpr ⟨hxc, hxk⟩)
  · intro x hx
    obtain ⟨hxw, hxk⟩ := (mem_keysOf_dremove _ k x).mp hx
    exact (mem_keysOf_dremove _ k x).mpr ⟨hws x hxw, hxk⟩
  · intro x hx
    obtain ⟨hxc, hxk⟩ := (mem_keysOf_dremove _ k x).mp hx
    exact (mem_keysOf_dremove _ k x).mpr ⟨hcs x hxc, hxk⟩

/-- The whole eviction loop preserves the pool invariant. -/
theorem poolWf_foldl_removeEvicted {V : Type} :
    ∀ (l : List (CKey × Int)) (pool : WeatherCachePool V), PoolWf pool →
      PoolWf (l.foldl (fun p q => removeEvicted p q.1) pool) := by
  intro l
  induction l with
  | nil => intro pool h; exact h
  | cons q l ih =>
    intro pool h
    rw [List.foldl_cons]
    exact ih _ (poolWf_removeEvicted pool q.1 h)

/-- `_evict_lru` preserves the pool invariant. -/
theorem poolWf_evict_lru {V : Type} (pool : WeatherCachePool V) (h : PoolWf pool) :
    PoolWf (_evict_lru pool) := by
  have hunfold : _evict_lru pool
      = if pool.weather_cache.length + pool.city_cache.length < pool.max_cache_size then pool
        else ((sortByAccessTime pool.access_order).take
            (pool.weather_cache.length + pool.city_cache.length
              - pool.max_cache_size + 1)).foldl
          (fun p q => removeEvicted p q.1) pool := rfl
  rw [hunfold]
  by_cases hlt : pool.weather_cache.length + pool.city_cache.length < pool.max_cache_size
  · rwa [if_pos hlt]
  · rw [if_neg hlt]
    exact poolWf_foldl_removeEvicted _ pool h

/-- `set_weather_data` preserves the pool invariant. -/
theorem poolWf_set_weather_data {V : Type} (pool : WeatherCachePool V)
    (now : Int) (loc : String) (v : V) (h : PoolWf pool) :
    PoolWf (set_weather_data pool now loc v) := by
  obtain ⟨hnw, hnc, hna, hw, hc, hsync, hws, hcs⟩ := h
  apply poolWf_evict_lru
  refine ⟨?_, hnc, ?_, ?_, hc, ?_, ?_, ?_⟩
  · exact nodup_keysOf_dinsert _ _ _ hnw
  · exact nodup_keysOf_dinsert _ _ _ hna
  · intro x hx
    rcases (mem_keysOf_dinsert _ _ _ x).mp hx with hx | rfl
    · exact hw x hx
    · exact weatherPre_isPrefixOf_generate now loc true
  · intro x hx
    rcases (mem_keysOf_dinsert _ _ _ x).mp hx with hx | rfl
    · rcases hsync x hx with hxw | hxc
      · exact Or.inl ((mem_keysOf_dinsert _ _ _ x).mpr (Or.inl hxw))
      · exact Or.inr hxc
    · exact Or.inl ((mem_keysOf_dinsert _ _ _ _).mpr (Or.inr rfl))
  · intro x hx
    rcases (mem_keysOf_dinsert _ _ _ x).mp hx with hx | rfl
    · exact (mem_keysOf_dinsert _ _ _ x).mpr (Or.inl (hws x hx))
    · exact (mem_keysOf_dinsert _ _ _ _).mpr (Or.inr rfl)
  · intro x hx
    exact (mem_keysOf_dinsert _ _ _ x).mpr (Or.inl (hcs x hx))

/-- `set_city_info` preserves the pool invariant. -/
theorem poolWf_set_city_info {V : Type} (pool : WeatherCachePool V)
    (now : Int) (loc : String) (v : V) (h : PoolWf pool) :
    PoolWf (set_city_info pool now loc v) := by
  obtain ⟨hnw, hnc, hna, hw, hc, hsync, hws, hcs⟩ := h
  apply poolWf_evict_lru
  refine ⟨hnw, ?_, ?_, hw, ?_, ?_, ?_, ?_⟩
  · exact nodup_keysOf_dinsert _ _ _ hnc
  · exact nodup_keysOf_dinsert _ _ _ hna
  · intro x hx
    rcases (mem_keysOf_dinsert _ _ _ x).mp hx with hx | rfl
    · exact hc x hx
    · exact cityPre_isPrefixOf_generate loc
  · intro x hx
    rcases (mem_keysOf_dinsert _ _ _ x).mp hx with hx | rfl
    · rcases hsync x hx with hxw | hxc
      · exact Or.inl hxw
      · exact Or.inr ((mem_keysOf_dinsert _ _ _ x).mpr (Or.inl hxc))
    · exact Or.inr ((mem_keysOf_dinsert _ _ _ _).mpr (Or.inr rfl))
  · intro x hx
    exact (mem_keysOf_dinsert _ _ _ x).mpr (Or.inl (hws x hx))
  · intro x hx
    rcases (mem_keysOf_dinsert _ _ _ x).mp hx with hx | rfl
    · exact (mem_keysOf_dinsert _ _ _ x).mpr (Or.inl (hcs x hx))
    · exact (mem_keysOf_dinsert _ _ _ _).mpr (Or.inr rfl)

/-- `get_weather_data` preserves the pool invariant in every branch. -/
theorem poolWf_get_weather_data {V : Type} (pool : WeatherCachePool V)
    (now : Int) (loc : String) (h : PoolWf pool) :
    PoolWf (get_weather_data pool now loc).2 := by
  obtain ⟨hnw, hnc, hna, hw, hc, hsync, hws, hcs⟩ := h
  rcases hl : dlookup (generate_weather_key now loc true) pool.weather_cache with _ | e
  · simp only [get_weather_data, hl]
    exact ⟨hnw, hnc, hna, hw, hc, hsync, hws, hcs⟩
  · have hkw : generate_weather_key now loc true ∈ keysOf pool.weather_cache :=
      mem_of_dlookup_some _ _ e hl
    by_cases hex : is_expired now e = true
    · simp only [get_weather_data, hl, hex, if_true]
      refine ⟨?_, hnc, ?_, ?_, hc, ?_, ?_, ?_⟩
      · rw [dremove]
        exact nodup_keysOf_filter _ _ hnw
      · rw [dremove]
        exact nodup_keysOf_filter _ _ hna
      · intro x hx
        exact hw x ((mem_keysOf_dremove _ _ x).mp hx).1
      · intro x hx
        obtain ⟨hxa, hxk⟩ := (mem_keysOf_dremove _ _ x).mp hx
        rcases hsync x hxa with hxw | hxc
        · exact Or.inl ((mem_keysOf_dremove _ _ x).mpr ⟨hxw, hxk⟩)
        · exact Or.inr hxc
      · intro x hx
        obtain ⟨hxw, hxk⟩ := (mem_keysOf_dremove _ _ x).mp hx
        exact (mem_keysOf_dremove _ _ x).mpr ⟨hws x hxw, hxk⟩
      · intro x hx
        refine (mem_keysOf_dremove _ _ x).mpr ⟨hcs x hx, ?_⟩
        intro hxk
        exact not_weatherPre_cityPre x (hxk ▸ hw _ hkw) (hc x hx)
    · simp only [get_weather_data, hl, hex, if_false]
      refine ⟨hnw, hnc, ?_, hw, hc, ?_, ?_, ?_⟩
      · exact nodup_keysOf_dinsert _ _ _ hna
      · intro x hx
        rcases (mem_keysOf_dinsert _ _ _ x).mp hx with hx | rfl
        · exact hsync x hx
        · exact Or.inl hkw
      · intro x hx
        exact (mem_keysOf_dinsert _ _ _ x).mpr (Or.inl (hws x hx))
      · intro x hx
        exact (mem_keysOf_dinsert _ _ _ x).mpr (Or.inl (hcs x hx))

/-- `get_city_info` preserves the pool invariant in every branch. -/
theorem poolWf_get_city_info {V : Type} (pool : WeatherCachePool V)
    (now : Int) (loc : String) (h : PoolWf pool) :
    PoolWf (get_city_info pool now loc).2 := by
  obtain ⟨hnw, hnc, hna, hw, hc, hsync, hws, hcs⟩ := h
  rcases hl : dlookup (generate_city_key loc) pool.city_cache with _ | e
  · simp only [get_city_info, hl]
    exact ⟨hnw, hnc, hna, hw, hc, hsync, hws, hcs⟩
  · have hkc : generate_city_key loc ∈ keysOf pool.city_cache :=
      mem_of_dlookup_some _ _ e hl
    by_cases hex : is_expired now e = true
    · simp only [get_city_info, hl, hex, if_true]
      refine ⟨hnw, ?_, ?_, hw, ?_, ?_, ?_, ?_⟩
      · rw [dremove]
        exact nodup_keysOf_filter _ _ hnc
      · rw [dremove]
        exact nodup_keysOf_filter _ _ hna
      · intro x hx
        exact hc x ((mem_keysOf_dremove _ _ x).mp hx).1
      · intro x hx
        obtain ⟨hxa, hxk⟩ := (mem_keysOf_dremove _ _ x).mp hx
        rcases hsync x hxa with hxw | hxc
        · exact Or.inl hxw
        · exact Or.inr ((mem_keysOf_dremove _ _ x).mpr ⟨hxc, hxk⟩)
      · intro x hx
        refine (mem_keysOf_dremove _ _ x).mpr ⟨hws x hx, ?_⟩
        intro hxk
        exact not_weatherPre_cityPre x (hw x hx) (hxk ▸ hc _ hkc)
      · intro x hx
        obtain ⟨hxc, hxk⟩ := (mem_keysOf_dremove _ _ x).mp hx
        exact (mem_keysOf_dremove _ _ x).mpr ⟨hcs x hxc, hxk⟩
    · simp only [get_city_info, hl, hex, if_false]
      refine ⟨hnw, hnc, ?_, hw, hc, ?_, ?_, ?_⟩
      · exact nodup_keysOf_dinsert _ _ _ hna
      · intro x hx
        rcases (mem_keysOf_dinsert _ _ _ x).mp hx with hx | rfl
        · exact hsync x hx
        · exact Or.inr hkc
      · intro x hx
        exact (mem_keysOf_dinsert _ _ _ x).mpr (Or.inl (hws x hx))
      · intro x hx
        exact (mem_keysOf_dinsert _ _ _ x).mpr (Or.inl (hcs x hx))

/-- `clear_cache` preserves the pool invariant. -/
theorem poolWf_clear_cache {V : Type} (pool : WeatherCachePool V) (h : PoolWf pool) :
    PoolWf (clear_cache pool) := by
  refine ⟨?_, ?_, ?_, ?_, ?_, ?_, ?_, ?_⟩ <;> simp [clear_cache, keysOf]

/-- Deleting a set of weather-store keys from the weather store and the
access index preserves the pool invariant. -/
theorem poolWf_filter_weather_keys {V : Type} (pool : WeatherCachePool V) (ks : List CKey)
    (hks : ∀ x ∈ ks, x ∈ keysOf pool.weather_cache) (h : PoolWf pool) :
    PoolWf { pool with
        weather_cache := pool.weather_cache.filter (fun p => ¬ p.1 ∈ ks),
        access_order := pool.access_order.filter (fun p => ¬ p.1 ∈ ks) } := by
  obtain ⟨hnw, hnc, hna, hw, hc, hsync, hws, hcs⟩ := h
  refine ⟨nodup_keysOf_filter _ _ hnw, hnc, nodup_keysOf_filter _ _ hna, ?_, hc, ?_, ?_, ?_⟩
  · intro x hx
    exact hw x ((mem_keysOf_filter_keys _ ks x).mp hx).1
  · intro x hx
    obtain ⟨hxa, hxk⟩ := (mem_keysOf_filter_keys _ ks x).mp hx
    rcases hsync x hxa with hxw | hxc
    · exact Or.inl ((mem_keysOf_filter_keys _ ks x).mpr ⟨hxw, hxk⟩)
    · exact Or.inr hxc
  · intro x hx
    obtain ⟨hxw, hxk⟩ := (mem_keysOf_filter_keys _ ks x).mp hx
    exact (mem_keysOf_filter_keys _ ks x).mpr ⟨hws x hxw, hxk⟩
  · intro x hx
    refine (mem_keysOf_filter_keys _ ks x).mpr ⟨hcs x hx, ?_⟩
    intro hxk
    exact not_weatherPre_cityPre x (hw x (hks x hxk)) (hc x hx)

/-- Deleting a set of city-store keys from the city store and the access
index preserves the pool invariant. -/
theorem poolWf_filter_city_keys {V : Type} (pool : WeatherCachePool V) (ks : List CKey)
    (hks : ∀ x ∈ ks, x ∈ keysOf pool.city_cache) (h : PoolWf pool) :
    PoolWf { pool with
        city_cache := pool.city_cache.filter (fun p => ¬ p.1 ∈ ks),
        access_order := pool.access_order.filter (fun p => ¬ p.1 ∈ ks) } := by
  obtain ⟨hnw, hnc, hna, hw, hc, hsync, hws, hcs⟩ := h
  refine ⟨hnw, nodup_keysOf_filter _ _ hnc, nodup_keysOf_filter _ _ hna, hw, ?_, ?_, ?_, ?_⟩
  · intro x hx
    exact hc x ((mem_keysOf_filter_keys _ ks x).mp hx).1
  · intro x hx
    obtain ⟨hxa, hxk⟩ := (mem_keysOf_filter_keys _ ks x).mp hx
    rcases hsync x hxa with hxw | hxc
    · exact Or.inl hxw
    · exact Or.inr ((mem_keysOf_filter_keys _ ks x).mpr ⟨hxc, hxk⟩)
  · intro x hx
    refine (mem_keysOf_filter_keys _ ks x).mpr ⟨hws x hx, ?_⟩
    intro hxk
    exact not_weatherPre_cityPre x (hw x hx) (hc x (hks x hxk))
  · intro x hx
    obtain ⟨hxc, hxk⟩ := (mem_keysOf_filter_keys _ ks x).mp hx
    exact (mem_keysOf_filter_keys _ ks x).mpr ⟨hcs x hxc, hxk⟩

/-- `clean_expired` preserves the pool invariant. -/
theorem poolWf_clean_expired {V : Type} (pool : WeatherCachePool V) (now : Int)
    (h : PoolWf pool) : PoolWf (clean_expired pool now) := by
  have h1 := poolWf_filter_weather_keys pool
    ((pool.weather_cache.filter (fun p => now > p.2.expires_at)).map Prod.fst)
    (fun x hx => keysOf_filter_subset _ _ x hx) h
  exact poolWf_filter_city_keys
    { pool with
        weather_cache := pool.weather_cache.filter (fun p => ¬ p.1 ∈
          ((pool.weather_cache.filter (fun p => now > p.2.expires_at)).map Prod.fst)),
        access_order := pool.access_order.filter (fun p => ¬ p.1 ∈
          ((pool.weather_cache.filter (fun p => now > p.2.expires_at)).map Prod.fst)) }
    ((pool.city_cache.filter (fun p => now > p.2.expires_at)).map Prod.fst)
    (fun x hx => keysOf_filter_subset _ _ x hx) h1

/-- C10 (confirmed): the pool invariant — in particular that the access
index holds exactly the union of the weather and city store keys, no
entry without an index record and no record without an entry — holds
after every operation (`Put` in both namespaces, `Get` in both
namespaces, eviction, `ClearAll`, `ClearExpired`) applied to any state
satisfying it; the final conjunct restates the index/store key-set
equality itself. -/
theorem c10_access_index_sync {V : Type} (pool : WeatherCachePool V) (h : PoolWf pool)
    (now : Int) (loc : String) (v : V) :
    PoolWf (set_weather_data pool now loc v)
    ∧ PoolWf (set_city_info pool now loc v)
    ∧ PoolWf (get_weather_data pool now loc).2
    ∧ PoolWf (get_city_info pool now loc).2
    ∧ PoolWf (_evict_lru pool)
    ∧ PoolWf (clear_cache pool)
    ∧ PoolWf (clean_expired pool now)
    ∧ (∀ k : CKey, k ∈ keysOf pool.access_order
        ↔ (k ∈ keysOf pool.weather_cache ∨ k ∈ keysOf pool.city_cache)) :=
  ⟨poolWf_set_weather_data pool now loc v h,
   poolWf_set_city_info pool now loc v h,
   poolWf_get_weather_data pool now loc h,
   poolWf_get_city_info pool now loc h,
   poolWf_evict_lru pool h,
   poolWf_clear_cache pool h,
   poolWf_clean_expired pool now h,
   fun k => ⟨fun hk => h.2.2.2.2.2.1 k hk,
     fun hk => hk.elim (fun hw => h.2.2.2.2.2.2.1 k hw) (fun hc => h.2.2.2.2.2.2.2 k hc)⟩⟩

/-- C10 witness: the invariant theorem applied to the concrete one-entry
pool exercised by the eviction witness. -/
theorem c10_witness :
    PoolWf (set_weather_data demoPool4 0 "a" 5)
    ∧ PoolWf (clean_expired demoPool4 4000)
    ∧ (∀ k : CKey, k ∈ keysOf demoPool4.access_order
        ↔ (k ∈ keysOf demoPool4.weather_cache ∨ k ∈ keysOf demoPool4.city_cache)) :=
  ⟨(c10_access_index_sync demoPool4 (by decide) 0 "a" 5).1,
   (c10_access_index_sync demoPool4 (by decide) 4000 "a" 5).2.2.2.2.2.2.1,
   (c10_access_index_sync demoPool4 (by decide) 0 "a" 5).2.2.2.2.2.2.2⟩

/-- A dict lookup misses when the key is absent. -/
theorem dlookup_eq_none_of_not_mem {K : Type} [DecidableEq K] {α : Type}
    (d : List (K × α)) (k : K) : ¬ k ∈ keysOf d → dlookup k d = none := by
  induction d with
  | nil => intro _; rfl
  | cons p d ih =>
    intro h
    rw [keysOf_cons, List.mem_cons, not_or] at h
    rw [dlookup, if_neg (fun hp => h.1 hp.symm)]
    exact ih h.2

/-- Assigning a fresh key appends the pair. -/
theorem dinsert_of_not_mem {K : Type} [DecidableEq K] {α : Type}
    (d : List (K × α)) (k : K) (v : α) (h : ¬ k ∈ keysOf d) :
    dinsert d k v = d ++ [(k, v)] := by
  rw [dinsert, if_neg]
  intro ha
  exact h ((any_eq_mem_keysOf d k).mp ha)

/-- Inserting above everything appends at the end (this is what keeps the
sort stable). -/
theorem insertByTime_append_of_le (p : CKey × Int) :
    ∀ acc : List (CKey × Int), (∀ q ∈ acc, q.2 ≤ p.2) →
      insertByTime p acc = acc ++ [p] := by
  intro acc
  induction acc with
  | nil => intro _; rfl
  | cons r acc ih =>
    intro h
    have hr := h r (List.mem_cons_self r acc)
    rw [insertByTime, if_neg (by omega)]
    rw [ih (fun q hq => h q (List.mem_cons_of_mem r hq))]
    rfl

/-- Folding insertions of an already ascending list onto an ascending
accumulator just appends it. -/
theorem sortFold_of_pairwise :
    ∀ (l acc : List (CKey × Int)),
      (acc ++ l).Pairwise (fun a b => a.2 ≤ b.2) →
      l.foldl (fun acc p => insertByTime p acc) acc = acc ++ l := by
  intro l
  induction l with
  | nil => intro acc _; simp
  | cons r l ih =>
    intro acc h
    rw [List.foldl_cons]
    have hr : insertByTime r acc = acc ++ [r] := by
      apply insertByTime_append_of_le
      intro q hq
      exact (List.pairwise_append.mp h).2.2 q hq r (List.mem_cons_self r l)
    rw [hr]
    have h' : ((acc ++ [r]) ++ l).Pairwise (fun a b => a.2 ≤ b.2) := by
      rw [List.append_assoc]
      exact h
    rw [ih (acc ++ [r]) h', List.append_assoc]
    rfl

/-- Sorting an already ascending access index is the identity. -/
theorem sortByAccessTime_of_pairwise (l : List (CKey × Int))
    (h : l.Pairwise (fun a b => a.2 ≤ b.2)) : sortByAccessTime l = l := by
  rw [sortByAccessTime]
  have := sortFold_of_pairwise l [] (by simpa using h)
  simpa using this

/-- The `Put` sequence of the LRU experiment: `m` successive
`set_weather_data` calls, the `i`-th at time `t i` with subject `loc i`
and payload `d i`. -/
def putSequence {V : Type} (pool0 : WeatherCachePool V) (t : Nat → Int)
    (loc : Nat → String) (d : Nat → V) : Nat → WeatherCachePool V
  | 0 => pool0
  | m + 1 => set_weather_data (putSequence pool0 t loc d m) (t m) (loc m) (d m)

/-- The key the `i`-th `Put` of the LRU experiment stores under. -/
def lruKey (t : Nat → Int) (loc : Nat → String) (i : Nat) : CKey :=
  generate_weather_key (t i) (loc i) true

/-- The entry the `i`-th `Put` of the LRU experiment stores. -/
def lruEntry {V : Type} (ttl : Int) (t : Nat → Int) (loc : Nat → String) (d : Nat → V)
    (i : Nat) : CacheEntry V :=
  { data := d i, created_at := t i, expires_at := t i + ttl, location := loc i }

/-- The explicit pool state of the LRU experiment: capacity `N`, empty
city namespace, the weather entries of indices `[s, s + cnt)` in
insertion order with matching access index, and `ev` evictions
counted. -/
def lruState {V : Type} (ttl cttl : Int) (N : Nat) (t : Nat → Int) (loc : Nat → String)
    (d : Nat → V) (s cnt ev : Nat) : WeatherCachePool V :=
  { weather_cache_ttl := ttl, city_cache_ttl := cttl, max_cache_size := N,
    enable_async_refresh := true,
    weather_cache := (List.range' s cnt).map
      (fun i => (lruKey t loc i, lruEntry ttl t loc d i)),
    city_cache := [],
    access_order := (List.range' s cnt).map (fun i => (lruKey t loc i, t i)),
    stats := ⟨0, 0, 0, 0, ev⟩ }

/-- One `Put` of the LRU experiment on the explicit state: a fresh key is
appended to the store and the index, then eviction runs. -/
theorem lruState_put {V : Type} (ttl cttl : Int) (N : Nat) (t : Nat → Int)
    (loc : Nat → String) (d : Nat → V) (s cnt ev m : Nat)
    (hsum : s + cnt = m)
    (hfresh : ∀ i, s ≤ i → i < m → lruKey t loc i ≠ lruKey t loc m) :
    set_weather_data (lruState ttl cttl N t loc d s cnt ev) (t m) (loc m) (d m)
      = _evict_lru (lruState ttl cttl N t loc d s (cnt + 1) ev) := by
  have hnm : ¬ lruKey t loc m ∈ keysOf ((List.range' s cnt).map
      (fun i => (lruKey t loc i, lruEntry ttl t loc d i))) := by
    intro hmem
    rw [keysOf, List.map_map, List.mem_map] at hmem
    obtain ⟨i, hi, hKi⟩ := hmem
    rw [List.mem_range'_1] at hi
    exact hfresh i hi.1 (by omega) hKi
  have hnma : ¬ lruKey t loc m ∈ keysOf ((List.range' s cnt).map
      (fun i => (lruKey t loc i, t i))) := by
    intro hmem
    rw [keysOf, List.map_map, List.mem_map] at hmem
    obtain ⟨i, hi, hKi⟩ := hmem
    rw [List.mem_range'_1] at hi
    exact hfresh i hi.1 (by omega) hKi
  have h1 : dinsert ((List.range' s cnt).map
        (fun i => (lruKey t loc i, lruEntry ttl t loc d i)))
        (lruKey t loc m) (lruEntry ttl t loc d m)
      = (List.range' s (cnt + 1)).map
        (fun i => (lruKey t loc i, lruEntry ttl t loc d i)) := by
    rw [dinsert_of_not_mem _ _ _ hnm, List.range'_concat, List.map_append]
    simp [hsum]
  have h2 : dinsert ((List.range' s cnt).map (fun i => (lruKey t loc i, t i)))
        (lruKey t loc m) (t m)
      = (List.range' s (cnt + 1)).map (fun i => (lruKey t loc i, t i)) := by
    rw [dinsert_of_not_mem _ _ _ hnma, List.range'_concat, List.map_append]
    simp [hsum]
  calc set_weather_data (lruState ttl cttl N t loc d s cnt ev) (t m) (loc m) (d m)
      = _evict_lru
          { lruState ttl cttl N t loc d s cnt ev with
            weather_cache := dinsert ((List.range' s cnt).map
              (fun i => (lruKey t loc i, lruEntry ttl t loc d i)))
              (lruKey t loc m) (lruEntry ttl t loc d m),
            access_order := dinsert ((List.range' s cnt).map
              (fun i => (lruKey t loc i, t i))) (lruKey t loc m) (t m) } := rfl
    _ = _evict_lru (lruState ttl cttl N t loc d s (cnt + 1) ev) := by
        rw [h1, h2]
        rfl

/-- Below capacity, eviction leaves the explicit state alone. -/
theorem lruState_evict_lt {V : Type} (ttl cttl : Int) (N : Nat) (t : Nat → Int)
    (loc : Nat → String) (d : Nat → V) (s cnt ev : Nat) (h : cnt < N) :
    _evict_lru (lruState ttl cttl N t loc d s cnt ev)
      = lruState ttl cttl N t loc d s cnt ev := by
  apply evict_lru_of_lt
  show ((List.range' s cnt).map
      (fun i => (lruKey t loc i, lruEntry ttl t loc d i))).length
    + ([] : List (CKey × CacheEntry V)).length < N
  rw [List.length_map, List.length_range']
  simpa using h

/-- At capacity, eviction removes exactly the head — the least recently
inserted entry — from the explicit state and counts one eviction. -/
theorem lruState_evict_full {V : Type} (ttl cttl : Int) (N : Nat) (t : Nat → Int)
    (loc : Nat → String) (d : Nat → V) (s cnt ev m : Nat)
    (hcnt : cnt + 1 = N)
    (hsum : s + cnt = m)
    (hmono' : ∀ i j, i ≤ j → j ≤ m → t i ≤ t j)
    (hfresh : ∀ i, s < i → i ≤ m → lruKey t loc s ≠ lruKey t loc i) :
    _evict_lru (lruState ttl cttl N t loc d s (cnt + 1) ev)
      = lruState ttl cttl N t loc d (s + 1) cnt (ev + 1) := by
  have elenW : (lruState ttl cttl N t loc d s (cnt + 1) ev).weather_cache.length
      = cnt + 1 := by
    show ((List.range' s (cnt + 1)).map
      (fun i => (lruKey t loc i, lruEntry ttl t loc d i))).length = cnt + 1
    rw [List.length_map, List.length_range']
  have hsorted : sortByAccessTime ((List.range' s (cnt + 1)).map
        (fun i => (lruKey t loc i, t i)))
      = (List.range' s (cnt + 1)).map (fun i => (lruKey t loc i, t i)) := by
    apply sortByAccessTime_of_pairwise
    rw [List.pairwise_map]
    apply List.Pairwise.imp_of_mem ?_ (List.pairwise_lt_range' s (cnt + 1) 1)
    intro i j hi hj hij
    rw [List.mem_range'_1] at hi hj
    exact hmono' i j (by omega) (by omega)
  have hunfold : _evict_lru (lruState ttl cttl N t loc d s (cnt + 1) ev)
      = if (lruState ttl cttl N t loc d s (cnt + 1) ev).weather_cache.length
            + (lruState ttl cttl N t loc d s (cnt + 1) ev).city_cache.length
            < (lruState ttl cttl N t loc d s (cnt + 1) ev).max_cache_size
        then lruState ttl cttl N t loc d s (cnt + 1) ev
        else ((sortByAccessTime
            (lruState ttl cttl N t loc d s (cnt + 1) ev).access_order).take
              ((lruState ttl cttl N t loc d s (cnt + 1) ev).weather_cache.length
                + (lruState ttl cttl N t loc d s (cnt + 1) ev).city_cache.length
                - (lruState ttl cttl N t loc d s (cnt + 1) ev).max_cache_size + 1)).foldl
            (fun p q => removeEvicted p q.1) (lruState ttl cttl N t loc d s (cnt + 1) ev)
      := rfl
  have elenC : (lruState ttl cttl N t loc d s (cnt + 1) ev).city_cache.length = 0 := rfl
  have emax : (lruState ttl cttl N t loc d s (cnt + 1) ev).max_cache_size = N := rfl
  have eacc : (lruState ttl cttl N t loc d s (cnt + 1) ev).access_order
      = (List.range' s (cnt + 1)).map (fun i => (lruKey t loc i, t i)) := rfl
  rw [hunfold, elenW, elenC, emax, eacc, if_neg (by omega), hsorted]
  have eidx : cnt + 1 + 0 - N + 1 = 1 := by omega
  rw [eidx, List.range'_succ, List.map_cons, List.take_succ_cons, List.take_zero,
    List.foldl_cons, List.foldl_nil]
  have hw1 : ∀ x ∈ keysOf (lruState ttl cttl N t loc d s (cnt + 1) ev).weather_cache,
      weatherPre.isPrefixOf x = true := by
    intro x hx
    have hx' : x ∈ keysOf ((List.range' s (cnt + 1)).map
        (fun i => (lruKey t loc i, lruEntry ttl t loc d i))) := hx
    rw [keysOf, List.map_map, List.mem_map] at hx'
    obtain ⟨i, _, rfl⟩ := hx'
    exact weatherPre_isPrefixOf_generate (t i) (loc i) true
  have hc1 : ∀ x ∈ keysOf (lruState ttl cttl N t loc d s (cnt + 1) ev).city_cache,
      cityPre.isPrefixOf x = true := by
    intro x hx
    have hx' : x ∈ keysOf ([] : List (CKey × CacheEntry V)) := hx
    simp [keysOf] at hx'
  rw [removeEvicted_eq (lruState ttl cttl N t loc d s (cnt + 1) ev)
    (lruKey t loc s, t s).1 hw1 hc1]
  have hdw : dremove (lruState ttl cttl N t loc d s (cnt + 1) ev).weather_cache
        (lruKey t loc s, t s).1
      = (List.range' (s + 1) cnt).map
        (fun i => (lruKey t loc i, lruEntry ttl t loc d i)) := by
    show dremove ((List.range' s (cnt + 1)).map
        (fun i => (lruKey t loc i, lruEntry ttl t loc d i))) (lruKey t loc s)
      = (List.range' (s + 1) cnt).map (fun i => (lruKey t loc i, lruEntry ttl t loc d i))
    rw [List.range'_succ, List.map_cons, dremove, List.filter_cons, if_neg (by simp)]
    apply List.filter_eq_self.mpr
    intro p hp
    rw [List.mem_map] at hp
    obtain ⟨i, hi, rfl⟩ := hp
    rw [List.mem_range'_1] at hi
    simp only [decide_eq_true_eq]
    exact fun hk => hfresh i (by omega) (by omega) hk.symm
  have hda : dremove (lruState ttl cttl N t loc d s (cnt + 1) ev).access_order
        (lruKey t loc s, t s).1
      = (List.range' (s + 1) cnt).map (fun i => (lruKey t loc i, t i)) := by
    show dremove ((List.range' s (cnt + 1)).map (fun i => (lruKey t loc i, t i)))
        (lruKey t loc s)
      = (List.range' (s + 1) cnt).map (fun i => (lruKey t loc i, t i))
    rw [List.range'_succ, List.map_cons, dremove, List.filter_cons, if_neg (by simp)]
    apply List.filter_eq_self.mpr
    intro p hp
    rw [List.mem_map] at hp
    obtain ⟨i, hi, rfl⟩ := hp
    rw [List.mem_range'_1] at hi
    simp only [decide_eq_true_eq]
    exact fun hk => hfresh i (by omega) (by omega) hk.symm
  have hdc : dremove (lruState ttl cttl N t loc d s (cnt + 1) ev).city_cache
        (lruKey t loc s, t s).1 = ([] : List (CKey × CacheEntry V)) := rfl
  rw [hdw, hda, hdc]
  rfl

/-- State of the pool after `m` distinct-key `Put`s (`1 ≤ m ≤ N + 1`)
into an initially empty pool of capacity `N ≥ 2`, at non-decreasing
times: exactly the entries of indices `[m + 1 - N, m)` survive, in
insertion order, with the access index matching and one eviction counted
per `Put` from the `N`-th on — each such `Put` having evicted the least
recently inserted survivor. -/
theorem putSequence_state {V : Type} (N : Nat) (hN : 2 ≤ N) (ttl cttl : Int)
    (t : Nat → Int) (loc : Nat → String) (d : Nat → V)
    (hmono : ∀ i j, i ≤ j → j ≤ N → t i ≤ t j)
    (hkeys : ∀ i j, i < j → j ≤ N → lruKey t loc i ≠ lruKey t loc j) :
    ∀ m, 1 ≤ m → m ≤ N + 1 →
      putSequence (mkWeatherCachePool V ttl cttl N true) t loc d m
        = lruState ttl cttl N t loc d (m + 1 - N) (m - (m + 1 - N)) (m + 1 - N) := by
  intro m
  induction m with
  | zero => intro h0 _; omega
  | succ m ih =>
    intro _ hm1
    by_cases hm0 : m = 0
    · subst hm0
      have h0 : putSequence (mkWeatherCachePool V ttl cttl N true) t loc d 1
          = set_weather_data (lruState ttl cttl N t loc d 0 0 0) (t 0) (loc 0) (d 0) := rfl
      rw [h0,
        lruState_put ttl cttl N t loc d 0 0 0 0 (by omega)
          (fun i h1 h2 => absurd h2 (Nat.not_lt_zero i)),
        lruState_evict_lt ttl cttl N t loc d 0 1 0 (by omega)]
      have e1 : 0 + 1 + 1 - N = 0 := by omega
      rw [e1]
    · have hm1' : 1 ≤ m := by omega
      have hmN : m ≤ N := by omega
      have hstep : putSequence (mkWeatherCachePool V ttl cttl N true) t loc d (m + 1)
          = set_weather_data (putSequence (mkWeatherCachePool V ttl cttl N true) t loc d m)
              (t m) (loc m) (d m) := rfl
      rw [hstep, ih hm1' (by omega),
        lruState_put ttl cttl N t loc d (m + 1 - N) (m - (m + 1 - N)) (m + 1 - N) m
          (by omega) (fun i _ h2 => hkeys i m h2 (by omega))]
      by_cases hcase : m - (m + 1 - N) + 1 < N
      · rw [lruState_evict_lt ttl cttl N t loc d (m + 1 - N) (m - (m + 1 - N) + 1)
          (m + 1 - N) hcase]
        have e1 : m + 1 + 1 - N = m + 1 - N := by omega
        rw [e1]
        have e2 : m + 1 - (m + 1 - N) = m - (m + 1 - N) + 1 := by omega
        rw [e2]
      · have hcnt : (m - (m + 1 - N)) + 1 = N := by omega
        rw [lruState_evict_full ttl cttl N t loc d (m + 1 - N) (m - (m + 1 - N))
          (m + 1 - N) m hcnt (by omega)
          (fun i j hij hjm => hmono i j hij (by omega))
          (fun i hsi him => hkeys (m + 1 - N) i hsi (by omega))]
        have e1 : m + 1 + 1 - N = (m + 1 - N) + 1 := by omega
        rw [e1]
        have e2 : m + 1 - (m + 1 - N + 1) = m - (m + 1 - N) := by omega
        rw [e2]

/-- Looking a key up in a mapped index list finds its entry when the key
construction is injective on the listed indices. -/
theorem dlookup_map_of_mem {α : Type} (K : Nat → CKey) (E : Nat → α) (i : Nat) :
    ∀ l : List Nat, i ∈ l → (∀ j ∈ l, K j = K i → j = i) →
      dlookup (K i) (l.map (fun j => (K j, E j))) = some (E i) := by
  intro l
  induction l with
  | nil => intro h _; simp at h
  | cons j l ih =>
    intro hi hinj
    rw [List.map_cons, dlookup]
    by_cases hji : K j = K i
    · rw [if_pos hji]
      have hj : j = i := hinj j (List.mem_cons_self j l) hji
      subst hj
      rfl
    · rw [if_neg hji]
      apply ih
      · rcases List.mem_cons.mp hi with rfl | hi'
        · exact absurd rfl hji
        · exact hi'
      · intro j' hj' hK
        exact hinj j' (List.mem_cons_of_mem j hj') hK

/-- C3 (amended): starting from an empty pool of capacity `N ≥ 2`, after
`N + 1` `Put`s of pairwise distinct keys with no intervening `Get`s (at
non-decreasing times within one hour bucket), the code's eviction — which
removes `count - capacity + 1` entries whenever `count ≥ capacity`, i.e.
on the `N`-th and the `N+1`-st `Put` — has evicted the TWO least recently
inserted keys: `Get`s on the first two inserted keys miss, and `Get`s on
each of the other `N - 1` keys hit (before their expiry). -/
theorem c3_lru_two_evictions {V : Type} (N : Nat) (hN : 2 ≤ N) (ttl cttl : Int)
    (t : Nat → Int) (loc : Nat → String) (d : Nat → V)
    (hmono : ∀ i j, i ≤ j → j ≤ N → t i ≤ t j)
    (hbucket : ∀ i, i ≤ N → timeBucketKey (t i) true = timeBucketKey (t 0) true)
    (hkeys : ∀ i j, i < j → j ≤ N → lruKey t loc i ≠ lruKey t loc j)
    (hspan : t N ≤ t 2 + ttl) :
    (get_weather_data (putSequence (mkWeatherCachePool V ttl cttl N true) t loc d (N + 1))
        (t N) (loc 0)).1 = none
    ∧ (get_weather_data (putSequence (mkWeatherCachePool V ttl cttl N true) t loc d (N + 1))
        (t N) (loc 1)).1 = none
    ∧ ∀ i, 2 ≤ i → i ≤ N →
        (get_weather_data (putSequence (mkWeatherCachePool V ttl cttl N true) t loc d (N + 1))
          (t N) (loc i)).1 = some (d i) := by
  have hkeq : ∀ i, i ≤ N → generate_weather_key (t N) (loc i) true = lruKey t loc i := by
    intro i hi
    rw [lruKey, generate_weather_key, generate_weather_key, hbucket i hi,
      hbucket N (le_refl N)]
  have hstate := putSequence_state N hN ttl cttl t loc d hmono hkeys (N + 1)
    (by omega) (by omega)
  have e1 : N + 1 + 1 - N = 2 := by omega
  rw [e1] at hstate
  have e2 : N + 1 - 2 = N - 1 := by omega
  rw [e2] at hstate
  rw [hstate]
  have hmiss : ∀ i, i < 2 →
      (get_weather_data (lruState ttl cttl N t loc d 2 (N - 1) 2) (t N) (loc i)).1
        = none := by
    intro i hi2
    have hl : dlookup (generate_weather_key (t N) (loc i) true)
        (lruState ttl cttl N t loc d 2 (N - 1) 2).weather_cache = none := by
      rw [hkeq i (by omega)]
      apply dlookup_eq_none_of_not_mem
      intro hmem
      have hmem' : lruKey t loc i ∈ keysOf ((List.range' 2 (N - 1)).map
          (fun j => (lruKey t loc j, lruEntry ttl t loc d j))) := hmem
      rw [keysOf, List.map_map, List.mem_map] at hmem'
      obtain ⟨j, hj, hKj⟩ := hmem'
      rw [List.mem_range'_1] at hj
      exact hkeys i j (by omega) (by omega) hKj.symm
    simp [get_weather_data, hl]
  refine ⟨hmiss 0 (by omega), hmiss 1 (by omega), ?_⟩
  intro i hi2 hiN
  have hl : dlookup (generate_weather_key (t N) (loc i) true)
      (lruState ttl cttl N t loc d 2 (N - 1) 2).weather_cache
      = some (lruEntry ttl t loc d i) := by
    rw [hkeq i hiN]
    apply dlookup_map_of_mem (lruKey t loc) (lruEntry ttl t loc d) i (List.range' 2 (N - 1))
    · rw [List.mem_range'_1]
      omega
    · intro j hj hK
      rw [List.mem_range'_1] at hj
      rcases Nat.lt_trichotomy j i with hlt | heq | hgt
      · exact absurd hK (hkeys j i hlt (by omega))
      · exact heq
      · exact absurd hK.symm (hkeys i j hgt (by omega))
  have hexp : is_expired (t N) (lruEntry ttl t loc d i) = false := by
    rw [is_expired]
    have h2i := hmono 2 i hi2 hiN
    simp only [lruEntry, decide_eq_false_iff_not, not_lt]
    omega
  simp only [lruEntry] at hexp
  simp [get_weather_data, hl, hexp, lruEntry]

/-- C3 counterexample: with capacity N = 2, after inserting the 3 distinct
keys `a`, `b`, `c` by `Put` with no intervening `Get`s, a `Get` on `b` —
which is not the least-recently-inserted key — also misses, and the
eviction counter stands at 2: the `Put` of `b` already evicted `a`
(count 2 ≥ capacity 2), and the `Put` of `c` then evicted `b`.  The
claim's "exactly the least-recently-inserted key is evicted, Gets on all
other N inserted keys hit" is false here. -/
theorem c3_counterexample :
    (get_weather_data
        (set_weather_data
          (set_weather_data
            (set_weather_data (mkWeatherCachePool Nat 3600 86400 2 true) 0 "a" 1)
            1 "b" 2)
          2 "c" 3)
        2 "b").1 = none
    ∧ (set_weather_data
        (set_weather_data
          (set_weather_data (mkWeatherCachePool Nat 3600 86400 2 true) 0 "a" 1)
          1 "b" 2)
        2 "c" 3).stats.evictions = 2 := by
  refine ⟨by decide, by decide⟩

/-- The put times of the concrete LRU run: second `i`. -/
def demoT (i : Nat) : Int := i

/-- The put subjects of the concrete LRU run. -/
def demoLoc (i : Nat) : String :=
  if i = 0 then "a" else if i = 1 then "b" else "c"

/-- The put payloads of the concrete LRU run. -/
def demoD (i : Nat) : Nat := i

/-- C3 witness: the amended theorem on the concrete capacity-2 run —
the first two inserted keys miss, the last hits. -/
theorem c3_witness :
    (get_weather_data (putSequence (mkWeatherCachePool Nat 3600 86400 2 true) demoT demoLoc demoD 3)
        (demoT 2) (demoLoc 0)).1 = none
    ∧ (get_weather_data (putSequence (mkWeatherCachePool Nat 3600 86400 2 true) demoT demoLoc demoD 3)
        (demoT 2) (demoLoc 1)).1 = none
    ∧ (get_weather_data (putSequence (mkWeatherCachePool Nat 3600 86400 2 true) demoT demoLoc demoD 3)
        (demoT 2) (demoLoc 2)).1 = some (demoD 2) := by
  have h := c3_lru_two_evictions 2 (by omega) 3600 86400 demoT demoLoc demoD
    (fun i j hij _ => by simpa [demoT] using Int.ofNat_le.mpr hij)
    (fun i hi => by interval_cases i <;> decide)
    (fun i j hij hj => by interval_cases j <;> interval_cases i <;> decide)
    (by decide)
  exact ⟨h.1, h.2.1, h.2.2 2 (le_refl 2) (le_refl 2)⟩
